import Mathlib

/-!
Verification of the skewer-db model engine (`src/SkewerModel.ts`).

The TypeScript source is shallowly embedded: JS records are insertion-ordered
association lists from field names to scalar values, the data cache maps id
strings to records, the index cache maps field names to maps from stringified
field values to id lists, and every fallible operation returns `Except`.
JS in-place mutation that survives a thrown error is modelled by returning the
mutated state alongside the error.
-/

namespace Skewer

/-- Scalar runtime values a record field can hold (string / number / boolean).
JS numbers are restricted to integers here; every claim under study only
involves integral numbers. -/
inductive Value where
  | vStr (s : String)
  | vNum (n : Int)
  | vBool (b : Bool)
deriving DecidableEq, Repr

/-- The schema `type` constructors (`String`, `Number`, `Boolean` in
`types.ts`); compared by tag. -/
inductive JType where
  | jsString
  | jsNumber
  | jsBoolean
deriving DecidableEq, Repr

/-- JS stringification of a value, as used for object keys and `toString()`:
`String(v)`. -/
def Value.toKey : Value → String
  | .vStr s => s
  | .vNum n => Int.repr n
  | .vBool b => cond b "true" "false"

/-- JS truthiness of a value: `""`, `0` and `false` are falsy. -/
def Value.truthy : Value → Bool
  | .vStr s => s != ""
  | .vNum n => n != 0
  | .vBool b => b

/-- `record[key].constructor === schema[key].type` comparison. -/
def Value.constructorIs : Value → JType → Bool
  | .vStr _, .jsString => true
  | .vNum _, .jsNumber => true
  | .vBool _, .jsBoolean => true
  | _, _ => false

/-- Truthiness of `record[key]` where `none` models JS `undefined`. -/
def optTruthy : Option Value → Bool
  | none => false
  | some v => v.truthy

/-- Truthiness of `record[key]?.toString()`: false for `undefined` and for
values whose string form is empty. -/
def optStrTruthy : Option Value → Bool
  | none => false
  | some v => v.toKey != ""

/-- A JS object: an insertion-ordered association list. Used for records, for
the data cache and (nested) for the index cache. -/
abbrev Obj := List (String × Value)

/-- `m[k]` on a JS object: first binding wins. -/
def lookupA {α : Type} (m : List (String × α)) (k : String) : Option α :=
  match m.find? (fun p => p.1 == k) with
  | some p => some p.2
  | none => none

/-- `m[k] = v` on a JS object: update the binding in place if the key exists
(JS objects never hold a key twice), otherwise append the new binding at the
end (JS insertion order). -/
def setA {α : Type} : List (String × α) → String → α → List (String × α)
  | [], k, v => [(k, v)]
  | a :: m, k, v => if a.1 = k then (k, v) :: m else a :: setA m k v

/-- `delete m[k]` on a JS object. -/
def delA {α : Type} (m : List (String × α)) (k : String) : List (String × α) :=
  m.filter (fun p => p.1 != k)

/-- The data cache: id → record. -/
abbrev DataCacheType := List (String × Obj)

/-- The index cache: field name → (stringified field value → id list). -/
abbrev IndexCache := List (String × List (String × List String))

/-- Per-field schema descriptor (`types.ts`). -/
structure FieldDesc where
  type : JType
  required : Bool := false
  enum : Option (List String) := none
  unique : Bool := false
  index : Bool := false
deriving DecidableEq, Repr

/-- A schema: field name → descriptor, in declaration order. -/
abbrev SchemaType := List (String × FieldDesc)

/-- Modelled from the spec: `CONSTANTS.ignoredDBRecordKeys` lives in
`src/Constants.ts`, which is not part of the provided sources; the spec names
the engine-owned fields `id`/`createdAt`/`updatedAt` as the skipped keys. -/
def ignoredDBRecordKeys : List String := ["id", "createdAt", "updatedAt"]

/-- Modelled from the spec: `booleanIsTrue` lives in `src/utils.ts`, which is
not part of the provided sources; per the spec the uniqueness check runs
exactly for fields marked `unique`, so on `Bool` flags it is the identity. -/
def booleanIsTrue (b : Bool) : Bool := b

/-- Errors thrown by the engine (`SkewerError.ts`), plus `typeErr` modelling a
raw JS `TypeError` (property access / method call on `undefined`). -/
inductive Err where
  | schemaValidation
  | recordNotFound
  | duplicateId
  | typeErr
deriving DecidableEq, Repr

/-- `addToIndex(record, id)` (`SkewerModel.ts:116-131`), acting on the index
cache. A thrown error carries the partially mutated index (JS mutates in
place). Note the lazy-init branch `this.indexCache[recordKey] =
{ [recordValue]: [] }` replaces the *whole* field map. -/
def addToIndex (schema : SchemaType) (idx : IndexCache) (record : Obj) (id : String) :
    Except (Err × IndexCache) IndexCache :=
  record.foldlM (fun idx p =>
    let recordKey := p.1
    let recordValue := p.2
    if recordKey ∈ ignoredDBRecordKeys then
      pure idx
    else
      match lookupA schema recordKey with
      | none => .error (.typeErr, idx)  -- `this.schema[recordKey].unique` on undefined
      | some fd =>
        if fd.unique || fd.index then
          let vk := recordValue.toKey
          let needInit : Bool :=
            match lookupA idx recordKey with
            | none => true
            | some m => (lookupA m vk).isNone
          let idx1 := if needInit then setA idx recordKey [(vk, [])] else idx
          -- after the branch above the entry exists, so the push cannot fail
          match lookupA idx1 recordKey with
          | none => pure idx1
          | some m =>
            match lookupA m vk with
            | none => pure idx1
            | some l => pure (setA idx1 recordKey (setA m vk (l ++ [id])))
        else
          pure idx) idx

/-- `updateInIndex(oldRecord, newRecord, id)` (`SkewerModel.ts:142-162`).
`oldRecord[recordKey]` may be `undefined`, which JS stringifies to the object
key `"undefined"`; `.filter` on a missing old-value list and `.push` on a
missing new-value list are JS `TypeError`s, carrying the index as mutated so
far. -/
def updateInIndex (schema : SchemaType) (idx : IndexCache) (oldRecord newRecord : Obj)
    (id : String) : Except (Err × IndexCache) IndexCache :=
  newRecord.foldlM (fun idx p =>
    let recordKey := p.1
    let recordValue := p.2
    if recordKey ∈ ignoredDBRecordKeys then
      pure idx
    else
      match lookupA schema recordKey with
      | none => .error (.typeErr, idx)
      | some fd =>
        if fd.unique || fd.index then
          let vk := recordValue.toKey
          let idx1 :=
            if (lookupA idx recordKey).isNone then setA idx recordKey [(vk, [])] else idx
          let oldKey :=
            match lookupA oldRecord recordKey with
            | some w => w.toKey
            | none => "undefined"
          match lookupA idx1 recordKey with
          | none => .error (.typeErr, idx1)
          | some m =>
            match lookupA m oldKey with
            | none => .error (.typeErr, idx1)  -- `.filter` on undefined
            | some l =>
              let m2 := setA m oldKey (l.filter (fun x => x != id))
              let idx2 := setA idx1 recordKey m2
              match lookupA m2 vk with
              | none => .error (.typeErr, idx2)  -- `.push` on undefined
              | some l2 => pure (setA idx2 recordKey (setA m2 vk (l2 ++ [id])))
        else
          pure idx) idx

/-- `deleteInIndex(oldRecord, deleteId)` (`SkewerModel.ts:172-190`). -/
def deleteInIndex (schema : SchemaType) (idx : IndexCache) (oldRecord : Obj)
    (deleteId : String) : Except (Err × IndexCache) IndexCache :=
  oldRecord.foldlM (fun idx p =>
    let recordKey := p.1
    let recordValue := p.2
    if recordKey ∈ ignoredDBRecordKeys then
      pure idx
    else
      match lookupA schema recordKey with
      | none => .error (.typeErr, idx)
      | some fd =>
        if fd.unique || fd.index then
          let vk := recordValue.toKey
          let idx1 :=
            if (lookupA idx recordKey).isNone then setA idx recordKey [(vk, [])] else idx
          let oldKey :=
            match lookupA oldRecord recordKey with
            | some w => w.toKey
            | none => "undefined"
          match lookupA idx1 recordKey with
          | none => .error (.typeErr, idx1)
          | some m =>
            match lookupA m oldKey with
            | none => .error (.typeErr, idx1)  -- `.filter` on undefined
            | some l => pure (setA idx1 recordKey (setA m oldKey (l.filter (fun x => x != deleteId))))
        else
          pure idx) idx

/-- Object key used for a search value; `none` models a JS `undefined`
search value (as passed internally by the uniqueness check), which JS
stringifies to `"undefined"`. -/
def ovKey : Option Value → String
  | some v => v.toKey
  | none => "undefined"

/-- `(record.count || 0)` inside `find`. -/
def jsCountVal (r : Obj) : Value :=
  match lookupA r "count" with
  | some v => if v.truthy then v else .vNum 0
  | none => .vNum 0

/-- JS `x + 1` on the scalar values that `record.count || 0` can produce. -/
def jsPlusOne : Value → Value
  | .vNum n => .vNum (n + 1)
  | .vBool b => .vNum ((cond b 1 0) + 1)
  | .vStr s => .vStr (s ++ "1")

/-- `{ ...record, count: (record.count || 0) + 1 }`. -/
def incCount (r : Obj) : Obj := setA r "count" (jsPlusOne (jsCountVal r))

/-- The object key JS derives from `dcValue.id` (stringified;
`"undefined"` if the record has no id). -/
def recIdKey (r : Obj) : String :=
  match lookupA r "id" with
  | some v => v.toKey
  | none => "undefined"

/-- One iteration of the predicate loop in `find` (`SkewerModel.ts:270-291`).
`counter` is the 1-based position of the predicate. -/
def findStep (schema : SchemaType) (dataCache : DataCacheType) (indexCache : IndexCache)
    (counter : Nat) (p : String × Option Value) (tdc : DataCacheType) :
    Except Err DataCacheType :=
  match lookupA schema p.1 with
  | none => .error .typeErr  -- `this.schema[key].unique` on undefined
  | some fd =>
    if fd.unique || fd.index then
      let dbIds := ((lookupA indexCache p.1).bind (fun m => lookupA m (ovKey p.2))).getD []
      .ok <| dbIds.foldl (fun tc dbId =>
        match lookupA (if counter == 1 then dataCache else tc) dbId with
        | some record => setA tc dbId (incCount record)
        | none => tc) tdc
    else
      -- `Object.values(...)` takes a snapshot before the mutating loop
      let snapshot := (if counter == 1 then dataCache else tdc).map (fun e => e.2)
      .ok <| snapshot.foldl (fun tc dcValue =>
        if lookupA dcValue p.1 == p.2 then
          setA tc (recIdKey dcValue) (incCount dcValue)
        else tc) tdc

/-- The predicate loop of `find`. The `tempDataCache.size === 0` short-circuit
in the source is dead code (`.size` of a plain object is `undefined`, and
`undefined === 0` is false), so the loop always processes every predicate. -/
def findLoop (schema : SchemaType) (dataCache : DataCacheType) (indexCache : IndexCache) :
    List (String × Option Value) → Nat → DataCacheType → Except Err DataCacheType
  | [], _, tdc => .ok tdc
  | p :: ps, counter, tdc =>
    match findStep schema dataCache indexCache counter p tdc with
    | .error e => .error e
    | .ok tdc' => findLoop schema dataCache indexCache ps (counter + 1) tdc'

/-- `find(searchParams)` (`SkewerModel.ts:264-301`): conjunctive exact-equality
query; records whose grafted match counter equals the number of predicates are
returned with the counter deleted. -/
def find (schema : SchemaType) (dataCache : DataCacheType) (indexCache : IndexCache)
    (searchParams : List (String × Option Value)) : Except Err (List Obj) :=
  match findLoop schema dataCache indexCache searchParams 1 [] with
  | .error e => .error e
  | .ok tdc =>
    .ok <| (tdc.map (fun e => e.2)).foldl (fun acc value =>
      if lookupA value "count" == some (.vNum (searchParams.length : Int)) then
        acc ++ [delA value "count"]
      else acc) []

/-- `record[key] && record[key].toString() && !(record[key].constructor ===
this.schema[key].type)` — the type check fires only for truthy values. -/
def typeCheckFails (rv : Option Value) (t : JType) : Bool :=
  optTruthy rv && optStrTruthy rv &&
    (match rv with
     | some v => !(v.constructorIs t)
     | none => false)

/-- `record[key] && schema.enum && type === String && !enum.includes(...)`. -/
def enumCheckFails (rv : Option Value) (fd : FieldDesc) : Bool :=
  match rv, fd.enum with
  | some v, some es => v.truthy && (fd.type == .jsString) && !(es.any (fun s => Value.vStr s == v))
  | _, _ => false

/-- The loop body of `validateSchema` (`SkewerModel.ts:82-106`), iterating the
schema fields in declaration order; `fields` is the remaining suffix while the
full `schema` stays available for the uniqueness query. -/
def validateFields (schema : SchemaType) (dataCache : DataCacheType) (indexCache : IndexCache)
    (record : Obj) (isUpdate : Bool) : List (String × FieldDesc) → Except Err Unit
  | [] => .ok ()
  | (key, fd) :: rest =>
    let rv := lookupA record key
    if fd.required && !(optStrTruthy rv) then
      .error .schemaValidation
    else if typeCheckFails rv fd.type then
      .error .schemaValidation
    else if enumCheckFails rv fd then
      .error .schemaValidation
    else if booleanIsTrue fd.unique then
      match find schema dataCache indexCache [(key, rv)] with
      | .error e => .error e
      | .ok l =>
        if l.length > (if isUpdate then 1 else 0) then
          .error .schemaValidation
        else
          validateFields schema dataCache indexCache record isUpdate rest
    else
      validateFields schema dataCache indexCache record isUpdate rest

/-- `validateSchema(record, isUpdate)` (`SkewerModel.ts:82-106`): read-only
with respect to the caches it queries. -/
def validateSchema (schema : SchemaType) (dataCache : DataCacheType) (indexCache : IndexCache)
    (record : Obj) (isUpdate : Bool) : Except Err Unit :=
  validateFields schema dataCache indexCache record isUpdate schema

/-- The in-memory and on-disk state of one `SkewerModel` instance. The two
disk files are modelled as always-present parsed values (file I/O itself is an
external collaborator per the spec). -/
structure MState where
  schema : SchemaType
  dataCache : DataCacheType
  indexCache : IndexCache
  isTxnOpen : Bool
  isIndexDirty : Bool
  diskData : DataCacheType
  diskIndex : IndexCache
deriving DecidableEq, Repr

/-- `saveFile()` (`SkewerModel.ts:64-72`): flush both caches to disk unless a
transaction is open; the index file is only rewritten when dirty. -/
def saveFile (st : MState) : MState :=
  if st.isTxnOpen then st
  else
    { st with
      diskData := st.dataCache
      diskIndex := if st.isIndexDirty then st.indexCache else st.diskIndex }

/-- `loadFile()` (`SkewerModel.ts:44-57`): reload both caches wholesale from
disk. -/
def loadFile (st : MState) : MState :=
  { st with dataCache := st.diskData, indexCache := st.diskIndex }

/-- `initialize()` (`SkewerModel.ts:196-214`) with the files already existing:
load both caches from disk. -/
def initializeModel (st : MState) : MState := loadFile st

/-- `openTransaction()` (`SkewerModel.ts:219-221`). -/
def openTransaction (st : MState) : MState := { st with isTxnOpen := true }

/-- `commitTransaction()` (`SkewerModel.ts:226-229`). -/
def commitTransaction (st : MState) : MState := saveFile { st with isTxnOpen := false }

/-- `abortTransaction()` (`SkewerModel.ts:234-237`). -/
def abortTransaction (st : MState) : MState := loadFile { st with isTxnOpen := false }

/-- `getAllRecords()` (`SkewerModel.ts:244-246`). -/
def getAllRecords (st : MState) : List Obj := st.dataCache.map (fun e => e.2)

/-- `findById(recordId)` (`SkewerModel.ts:254-256`). -/
def findById (st : MState) (recordId : String) : Option Obj :=
  lookupA st.dataCache recordId

/-- `countAll()` (`SkewerModel.ts:308-310`). -/
def countAll (st : MState) : Nat := st.dataCache.length

/-- `insertOne(record, id?)` (`SkewerModel.ts:320-343`). `genId` stands for
`randomUUID()` and `now` for `new Date().toISOString()` (external
collaborators). An empty-string custom id is falsy in JS and is treated like
an absent one. -/
def insertOne (st : MState) (record : Obj) (idOpt : Option String) (genId : String)
    (now : String) : Except (Err × MState) (MState × Obj) :=
  let idTruthy := match idOpt with | some s => s != "" | none => false
  if idTruthy && (lookupA st.dataCache (idOpt.getD "")).isSome then
    .error (.duplicateId, st)
  else
    match validateSchema st.schema st.dataCache st.indexCache record false with
    | .error e => .error (e, st)
    | .ok _ =>
      let strippedRecord := delA record "id"
      let newId := match idOpt with
        | some s => if s ≠ "" then s else genId
        | none => genId
      match addToIndex st.schema st.indexCache strippedRecord newId with
      | .error ei => .error (ei.1, { st with indexCache := ei.2, isIndexDirty := true })
      | .ok idx' =>
        let rec' := setA (setA (setA record "id" (.vStr newId))
          "createdAt" (.vStr now)) "updatedAt" (.vStr now)
        let st' := { st with
          indexCache := idx'
          isIndexDirty := true
          dataCache := setA st.dataCache newId rec' }
        .ok (saveFile st', rec')

/-- `{ ...oldRecord, ...strippedNewRecord }`: spread-merge of two objects. -/
def mergeObj (a b : Obj) : Obj := b.foldl (fun acc p => setA acc p.1 p.2) a

/-- `updateById(recordId, newRecord)` (`SkewerModel.ts:380-401`). The index is
updated *before* validation; a validation failure therefore leaves the index
mutated. -/
def updateById (st : MState) (recordId : String) (newRecord : Obj) (now : String) :
    Except (Err × MState) (MState × Obj) :=
  match lookupA st.dataCache recordId with
  | none => .error (.recordNotFound, st)
  | some oldRecord =>
    let strippedNewRecord := delA (delA (delA newRecord "id") "createdAt") "updatedAt"
    let oid :=
      match lookupA oldRecord "id" with
      | some v => v.toKey
      | none => "undefined"
    match updateInIndex st.schema st.indexCache oldRecord strippedNewRecord oid with
    | .error ei => .error (ei.1, { st with indexCache := ei.2, isIndexDirty := true })
    | .ok idx' =>
      let formedNewRecord := setA (mergeObj oldRecord strippedNewRecord) "updatedAt" (.vStr now)
      let st1 := { st with indexCache := idx', isIndexDirty := true }
      match validateSchema st1.schema st1.dataCache st1.indexCache formedNewRecord true with
      | .error e => .error (e, st1)
      | .ok _ =>
        let st2 := { st1 with dataCache := setA st1.dataCache recordId formedNewRecord }
        .ok (saveFile st2, formedNewRecord)

/-- `insertMany(newRecords)` (`SkewerModel.ts:352-370`): one flush at the end;
a failure leaves previously processed records applied. Each input comes with
its fallback generated uuid. -/
def insertMany (st : MState) (newRecords : List (Obj × String)) (now : String) :
    Except (Err × MState) (MState × List Obj) :=
  match newRecords.foldlM (fun (acc : MState × List Obj) xg =>
      (let (st, outs) := acc
       let x := xg.1
       match validateSchema st.schema st.dataCache st.indexCache x false with
      | .error e => .error (e, st)
      | .ok _ =>
        let newId := match lookupA x "id" with
          | some v => if v.truthy then v.toKey else xg.2
          | none => xg.2
        match addToIndex st.schema st.indexCache x newId with
        | .error ei => .error (ei.1, { st with indexCache := ei.2, isIndexDirty := true })
        | .ok idx' =>
          let x' := setA (setA (setA x "id" (.vStr newId))
            "createdAt" (.vStr now)) "updatedAt" (.vStr now)
          .ok ({ st with
              indexCache := idx'
              isIndexDirty := true
              dataCache := setA st.dataCache newId x' }, outs ++ [x'])
       : Except (Err × MState) (MState × List Obj))) (st, []) with
  | .error e => .error e
  | .ok (st', outs) => .ok (saveFile st', outs)

/-- `insertOrUpdate(record, id)` (`SkewerModel.ts:411-417`). -/
def insertOrUpdate (st : MState) (record : Obj) (id : String) (genId : String) (now : String) :
    Except (Err × MState) (MState × Obj) :=
  if (lookupA st.dataCache id).isSome then
    updateById st id record now
  else
    insertOne st record (some id) genId now

/-- `deleteById(recordId)` (`SkewerModel.ts:426-440`): the record leaves the
data cache before the index is updated. -/
def deleteById (st : MState) (recordId : String) : Except (Err × MState) (MState × Obj) :=
  match lookupA st.dataCache recordId with
  | none => .error (.recordNotFound, st)
  | some deletedRecord =>
    let st1 := { st with dataCache := delA st.dataCache recordId }
    match deleteInIndex st1.schema st1.indexCache deletedRecord recordId with
    | .error ei => .error (ei.1, { st1 with indexCache := ei.2, isIndexDirty := true })
    | .ok idx' =>
      .ok (saveFile { st1 with indexCache := idx', isIndexDirty := true }, deletedRecord)

/-- `deleteAll()` (`SkewerModel.ts:445-448`): clears the data cache only; the
index cache is left untouched. -/
def deleteAll (st : MState) : MState :=
  saveFile { st with dataCache := [] }

/-- The object key under which a record is indexed for field `f`:
the stringified field value, `"undefined"` when the field is absent. -/
def fieldKey (r : Obj) (f : String) : String :=
  match lookupA r f with
  | some v => v.toKey
  | none => "undefined"

/-- Whether schema field `f` is maintained in the index cache
(`unique` or `index` flag set). -/
def isIndexedField (schema : SchemaType) (f : String) : Bool :=
  match lookupA schema f with
  | some fd => fd.unique || fd.index
  | none => false

/-- Whether schema field `f` is marked `unique`. -/
def isUniqueField (schema : SchemaType) (f : String) : Bool :=
  match lookupA schema f with
  | some fd => fd.unique
  | none => false

/-- The id list `IndexCache[f][vk]` as `find` reads it
(`this.indexCache[key]?.[value] || []`). -/
def dbIdsAt (idx : IndexCache) (f vk : String) : List String :=
  ((lookupA idx f).bind (fun m => lookupA m vk)).getD []

/-- Decidable form of the §3 index-cache invariant for a concrete state: every
record's id appears exactly once under its own stringified value of every
indexed/unique field, under no other value, and unique fields' lists hold at
most one id. -/
def idxInvariantB (st : MState) : Bool :=
  st.dataCache.all fun e =>
    st.schema.all fun fe =>
      !(fe.2.unique || fe.2.index) ||
      (match lookupA st.indexCache fe.1 with
       | none => false
       | some m =>
         (match lookupA m (fieldKey e.2 fe.1) with
          | none => false
          | some l => l.count (recIdKey e.2) == 1) &&
         m.all (fun p => p.1 == fieldKey e.2 fe.1 || p.2.count (recIdKey e.2) == 0) &&
         (!fe.2.unique || m.all (fun p => decide (p.2.length ≤ 1))))

/-- The §3 index-cache invariant, propositionally, for arbitrary states: for
every record `r` of the data cache and every indexed/unique field `f`, `r.id`
occurs in `IndexCache[f][vk]` exactly once when `vk` is `r`'s stringified
value of `f` and zero times for every other `vk` (an absent list reads as
`[]`); unique fields' lists hold at most one id. -/
def SatisfiesIdxInv (schema : SchemaType) (dc : DataCacheType) (idx : IndexCache) : Prop :=
  (∀ pr ∈ dc, ∀ f, isIndexedField schema f = true →
    ∀ vk, (dbIdsAt idx f vk).count (recIdKey pr.2) =
      (if fieldKey pr.2 f = vk then 1 else 0)) ∧
  (∀ f, isUniqueField schema f = true →
    ∀ m, lookupA idx f = some m → ∀ e ∈ m, e.2.length ≤ 1)

/-- A record with the transient match counter grafted on, as `find` builds it. -/
def withCount (r : Obj) (c : Int) : Obj := r ++ [("count", Value.vNum c)]

/-- Boolean equality match of one predicate against a record. -/
def matchB (r : Obj) (p : String × Value) : Bool := lookupA r p.1 == some p.2

/-- Number of predicates of `qs` that `r` matches. -/
def cntM (r : Obj) (qs : List (String × Value)) : Int := ((qs.filter (matchB r)).length : Int)

-- ### Concrete instances used by counterexamples and witnesses

/-- A one-field schema with an indexed string field `name`. -/
def c1Schema : SchemaType := [("name", { type := .jsString, index := true })]

/-- The empty store over `c1Schema`. -/
def c1St0 : MState :=
  { schema := c1Schema, dataCache := [], indexCache := [], isTxnOpen := false
    isIndexDirty := false, diskData := [], diskIndex := [] }

/-- Two successive `insertOne` calls from the empty store, with different
values of the indexed field. -/
def c1Run : Except (Err × MState) MState :=
  match insertOne c1St0 [("name", .vStr "a")] (some "1") "u1" "t1" with
  | .error e => .error e
  | .ok (s1, _) =>
    match insertOne s1 [("name", .vStr "b")] (some "2") "u2" "t2" with
    | .error e => .error e
    | .ok (s2, _) => .ok s2

/-- An index cache with one entry: `name → { "a": ["1"] }`. -/
def c2Idx : IndexCache := [("name", [("a", ["1"])])]

/-- Schema for the failed-update counterexample: indexed `name`, plain `age`. -/
def c6Schema : SchemaType :=
  [("name", { type := .jsString, index := true }), ("age", { type := .jsNumber })]

def c6r1 : Obj :=
  [("name", .vStr "a"), ("age", .vNum 30), ("id", .vStr "1"),
   ("createdAt", .vStr "t0"), ("updatedAt", .vStr "t0")]

def c6r2 : Obj :=
  [("name", .vStr "a"), ("age", .vNum 25), ("id", .vStr "2"),
   ("createdAt", .vStr "t0"), ("updatedAt", .vStr "t0")]

/-- Two records sharing the indexed value `"a"`, index cache in sync. -/
def c6St : MState :=
  { schema := c6Schema, dataCache := [("1", c6r1), ("2", c6r2)]
    indexCache := [("name", [("a", ["1", "2"])])], isTxnOpen := false
    isIndexDirty := false, diskData := [], diskIndex := [] }

/-- A partial update that re-states `name` and sets `age` to a string (type
violation). -/
def c6Upd : Obj := [("name", .vStr "a"), ("age", .vStr "x")]

/-- The state `updateById c6St "1" c6Upd` leaves behind on validation failure:
the `name` index list has been reordered to `["2", "1"]`. -/
def c6StErr : MState :=
  { c6St with indexCache := [("name", [("a", ["2", "1"])])], isIndexDirty := true }

/-- A schema declaring a `Boolean` field. -/
def c5Schema : SchemaType := [("active", { type := .jsBoolean })]

/-- A record whose `active` field holds the number `0` — present, of the wrong
runtime type, but falsy. -/
def c5Rec : Obj := [("active", .vNum 0)]

/-- A schema with a single non-indexed number field. -/
def c3Schema : SchemaType := [("age", { type := .jsNumber })]

def c3Rec : Obj :=
  [("age", .vNum 30), ("id", .vStr "1"), ("createdAt", .vStr "t"), ("updatedAt", .vStr "t")]

def c3Dc : DataCacheType := [("1", c3Rec)]

/-- Schema of the spec's query-intersection example: indexed `age`, plain
`active`. -/
def w3Schema : SchemaType :=
  [("age", { type := .jsNumber, index := true }), ("active", { type := .jsBoolean })]

def w3r1 : Obj :=
  [("age", .vNum 30), ("active", .vBool true), ("id", .vStr "1"),
   ("createdAt", .vStr "t"), ("updatedAt", .vStr "t")]

def w3r2 : Obj :=
  [("age", .vNum 30), ("active", .vBool false), ("id", .vStr "2"),
   ("createdAt", .vStr "t"), ("updatedAt", .vStr "t")]

def w3Dc : DataCacheType := [("1", w3r1), ("2", w3r2)]

def w3Idx : IndexCache := [("age", [("30", ["1", "2"])])]

/-- The predicates `{age: 30, active: true}`. -/
def w3Ps : List (String × Value) := [("age", .vNum 30), ("active", .vBool true)]

/-- Lift value predicates to the `Option Value` form `find` consumes (the
public API always passes actual values). -/
def toPredOpt (ps : List (String × Value)) : List (String × Option Value) :=
  ps.map (fun p => (p.1, some p.2))

/-- Invariant of `find`'s predicate loop after the first predicate `p0` and a
further batch `qs` have been processed: the temp cache holds exactly the
records matching `p0`, each with the count of matched predicates grafted on. -/
def LoopInv (dc : DataCacheType) (p0 : String × Value) (qs : List (String × Value))
    (tdc : DataCacheType) : Prop :=
  (tdc.map Prod.fst).Nodup ∧
  (∀ k, k ∈ tdc.map Prod.fst → ∃ r, (k, r) ∈ dc ∧ matchB r p0 = true) ∧
  (∀ k r, (k, r) ∈ dc → matchB r p0 = true →
    lookupA tdc k = some (withCount r (cntM r (p0 :: qs))))

/-- The record produced by inserting `{name:"a"}` with custom id "1" at time
"t1". -/
def w8Rec : Obj :=
  [("name", .vStr "a"), ("id", .vStr "1"), ("createdAt", .vStr "t1"), ("updatedAt", .vStr "t1")]

/-- The state after that insert (transaction closed, so flushed to disk). -/
def w8St : MState :=
  { schema := c1Schema, dataCache := [("1", w8Rec)]
    indexCache := [("name", [("a", ["1"])])], isTxnOpen := false
    isIndexDirty := true, diskData := [("1", w8Rec)]
    diskIndex := [("name", [("a", ["1"])])] }

/-- The state after the same insert performed inside an open transaction:
nothing reaches the disk. -/
def w7St2 : MState :=
  { schema := c1Schema, dataCache := [("1", w8Rec)]
    indexCache := [("name", [("a", ["1"])])], isTxnOpen := true
    isIndexDirty := true, diskData := [], diskIndex := [] }

-- ### General lemmas about the JS-object association-list operations

theorem lookupA_nil {α : Type} (k : String) : lookupA ([] : List (String × α)) k = none := rfl

theorem lookupA_cons {α : Type} (a : String × α) (m : List (String × α)) (k : String) :
    lookupA (a :: m) k = if a.1 = k then some a.2 else lookupA m k := by
  unfold lookupA
  by_cases h : a.1 = k
  · rw [List.find?_cons_of_pos _ (by simpa using h), if_pos h]
  · rw [List.find?_cons_of_neg _ (by simpa using h), if_neg h]

theorem lookupA_append {α : Type} (m m' : List (String × α)) (k : String) :
    lookupA (m ++ m') k = (lookupA m k).or (lookupA m' k) := by
  induction m with
  | nil => simp [lookupA_nil, Option.or]
  | cons a m ih =>
    rw [List.cons_append, lookupA_cons, lookupA_cons]
    by_cases h : a.1 = k
    · simp [h, Option.or]
    · simp [h, ih]

theorem lookupA_eq_none_iff {α : Type} (m : List (String × α)) (k : String) :
    lookupA m k = none ↔ ∀ p ∈ m, p.1 ≠ k := by
  induction m with
  | nil => simp [lookupA_nil]
  | cons a m ih =>
    rw [lookupA_cons]
    by_cases h : a.1 = k
    · simp [h]
    · simp [h, ih]

theorem lookupA_isSome_iff {α : Type} (m : List (String × α)) (k : String) :
    (lookupA m k).isSome = true ↔ k ∈ m.map Prod.fst := by
  induction m with
  | nil => simp [lookupA_nil]
  | cons a m ih =>
    rw [lookupA_cons]
    by_cases h : a.1 = k
    · simp [h.symm]
    · rw [if_neg h]
      simp only [List.map_cons, List.mem_cons]
      rw [ih]
      constructor
      · exact fun hh => Or.inr hh
      · rintro (h1 | h2)
        · exact absurd h1.symm h
        · exact h2

theorem mem_of_lookupA_eq_some {α : Type} {m : List (String × α)} {k : String} {v : α}
    (h : lookupA m k = some v) : (k, v) ∈ m := by
  induction m with
  | nil => simp [lookupA_nil] at h
  | cons a m ih =>
    rw [lookupA_cons] at h
    by_cases hak : a.1 = k
    · rw [if_pos hak] at h
      obtain ⟨a1, a2⟩ := a
      simp only at hak
      injection h with h2
      subst hak
      subst h2
      exact List.mem_cons_self _ _
    · rw [if_neg hak] at h
      exact List.mem_cons_of_mem _ (ih h)

theorem lookupA_eq_some_of_mem {α : Type} {m : List (String × α)} {k : String} {v : α}
    (hnd : (m.map Prod.fst).Nodup) (h : (k, v) ∈ m) : lookupA m k = some v := by
  induction m with
  | nil => simp at h
  | cons a m ih =>
    rw [List.map_cons, List.nodup_cons] at hnd
    rw [lookupA_cons]
    rcases List.mem_cons.mp h with heq | hmem
    · rw [← heq]
      simp
    · have hk : a.1 ≠ k := by
        intro hak
        exact hnd.1 (hak ▸ List.mem_map.mpr ⟨(k, v), hmem, rfl⟩)
      rw [if_neg hk]
      exact ih hnd.2 hmem

theorem lookupA_setA {α : Type} (m : List (String × α)) (k k' : String) (v : α) :
    lookupA (setA m k v) k' = if k' = k then some v else lookupA m k' := by
  induction m with
  | nil =>
    show lookupA [(k, v)] k' = _
    rw [lookupA_cons, lookupA_nil]
    by_cases h : k' = k
    · simp [h]
    · rw [if_neg (show k ≠ k' from fun hh => h hh.symm), if_neg h]
  | cons a m ih =>
    by_cases hak : a.1 = k
    · show lookupA (if a.1 = k then (k, v) :: m else a :: setA m k v) k' = _
      rw [if_pos hak]
      by_cases h : k' = k
      · subst h
        rw [lookupA_cons, if_pos rfl, if_pos rfl]
      · rw [lookupA_cons, lookupA_cons, if_neg h,
          if_neg (show (k, v).1 ≠ k' from fun hh => h hh.symm),
          if_neg (show a.1 ≠ k' from by rw [hak]; exact fun hh => h hh.symm)]
    · show lookupA (if a.1 = k then (k, v) :: m else a :: setA m k v) k' = _
      rw [if_neg hak, lookupA_cons]
      by_cases h : k' = k
      · subst h
        rw [if_neg (fun hh => hak hh), ih, if_pos rfl, if_pos rfl]
      · rw [if_neg h, lookupA_cons]
        by_cases hak' : a.1 = k'
        · rw [if_pos hak', if_pos hak']
        · rw [if_neg hak', if_neg hak', ih, if_neg h]

theorem lookupA_setA_self {α : Type} (m : List (String × α)) (k : String) (v : α) :
    lookupA (setA m k v) k = some v := by
  rw [lookupA_setA, if_pos rfl]

theorem lookupA_setA_ne {α : Type} {m : List (String × α)} {k k' : String} {v : α}
    (h : k' ≠ k) : lookupA (setA m k v) k' = lookupA m k' := by
  rw [lookupA_setA, if_neg h]

theorem keys_setA_of_isSome {α : Type} {m : List (String × α)} {k : String} (v : α)
    (h : (lookupA m k).isSome = true) : (setA m k v).map Prod.fst = m.map Prod.fst := by
  induction m with
  | nil => rw [lookupA_nil] at h; simp at h
  | cons a m ih =>
    rw [lookupA_cons] at h
    by_cases hak : a.1 = k
    · show ((if a.1 = k then (k, v) :: m else a :: setA m k v).map Prod.fst) = _
      rw [if_pos hak]
      simp [hak]
    · rw [if_neg hak] at h
      show ((if a.1 = k then (k, v) :: m else a :: setA m k v).map Prod.fst) = _
      rw [if_neg hak]
      simp only [List.map_cons]
      rw [ih h]

theorem keys_setA_of_none {α : Type} {m : List (String × α)} {k : String} (v : α)
    (h : lookupA m k = none) : (setA m k v).map Prod.fst = m.map Prod.fst ++ [k] := by
  induction m with
  | nil => simp [setA]
  | cons a m ih =>
    rw [lookupA_cons] at h
    by_cases hak : a.1 = k
    · rw [if_pos hak] at h
      exact absurd h (by simp)
    · rw [if_neg hak] at h
      show ((if a.1 = k then (k, v) :: m else a :: setA m k v).map Prod.fst) = _
      rw [if_neg hak]
      simp only [List.map_cons, List.cons_append]
      rw [ih h]

theorem nodup_keys_setA {α : Type} {m : List (String × α)} {k : String} (v : α)
    (h : (m.map Prod.fst).Nodup) : ((setA m k v).map Prod.fst).Nodup := by
  cases hs : (lookupA m k).isSome with
  | true => rw [keys_setA_of_isSome v hs]; exact h
  | false =>
    have hn : lookupA m k = none := by
      cases hl : lookupA m k
      · rfl
      · rw [hl] at hs; simp at hs
    rw [keys_setA_of_none v hn]
    have hk : k ∉ m.map Prod.fst := by
      intro hmem
      rw [← lookupA_isSome_iff, hn] at hmem
      simp at hmem
    exact List.Nodup.append h (List.nodup_singleton k)
      (by simpa [List.disjoint_singleton] using hk)

theorem setA_append_of_none_left {α : Type} {m : List (String × α)} {k : String} (v : α)
    (l : List (String × α)) (h : lookupA m k = none) :
    setA (m ++ l) k v = m ++ setA l k v := by
  induction m with
  | nil => simp
  | cons a m ih =>
    rw [lookupA_cons] at h
    by_cases hak : a.1 = k
    · rw [if_pos hak] at h
      exact absurd h (by simp)
    · rw [if_neg hak] at h
      rw [List.cons_append]
      show (if a.1 = k then (k, v) :: (m ++ l) else a :: setA (m ++ l) k v) = _
      rw [if_neg hak, ih h, List.cons_append]

theorem setA_eq_append_of_none {α : Type} {m : List (String × α)} {k : String} (v : α)
    (h : lookupA m k = none) : setA m k v = m ++ [(k, v)] := by
  have := setA_append_of_none_left v [] h
  simpa using this

theorem setA_append_key {α : Type} {m : List (String × α)} {k : String} (w v : α)
    (h : lookupA m k = none) : setA (m ++ [(k, w)]) k v = m ++ [(k, v)] := by
  rw [setA_append_of_none_left v [(k, w)] h]
  show m ++ (if k = k then (k, v) :: [] else _) = _
  rw [if_pos rfl]

theorem setA_middle {α : Type} {m : List (String × α)} {k : String} (o v : α)
    (rest : List (String × α)) (h : lookupA m k = none) :
    setA (m ++ (k, o) :: rest) k v = m ++ (k, v) :: rest := by
  rw [setA_append_of_none_left v _ h]
  show m ++ (if k = k then (k, v) :: rest else _) = _
  rw [if_pos rfl]

theorem lookupA_delA {α : Type} (m : List (String × α)) (k k' : String) :
    lookupA (delA m k) k' = if k' = k then none else lookupA m k' := by
  induction m with
  | nil =>
    by_cases h : k' = k <;> simp [delA, lookupA_nil, h]
  | cons a m ih =>
    by_cases hak : a.1 = k
    · have : delA (a :: m) k = delA m k := by
        simp [delA, List.filter_cons, hak]
      rw [this, ih, lookupA_cons]
      by_cases h : k' = k
      · simp [h]
      · rw [if_neg h, if_neg h, if_neg (show a.1 ≠ k' from by rw [hak]; exact fun hh => h hh.symm)]
    · have : delA (a :: m) k = a :: delA m k := by
        simp [delA, List.filter_cons, hak]
      rw [this, lookupA_cons, ih, lookupA_cons]
      by_cases h : k' = k
      · rw [if_pos h, if_pos h, if_neg (show a.1 ≠ k' from by rw [h]; exact hak)]
      · rw [if_neg h, if_neg h]

theorem delA_eq_self_of_none {α : Type} {m : List (String × α)} {k : String}
    (h : lookupA m k = none) : delA m k = m := by
  rw [delA, List.filter_eq_self]
  intro p hp
  rw [lookupA_eq_none_iff] at h
  simpa using h p hp


-- ### Operation-shape lemmas

theorem saveFile_dataCache (st : MState) : (saveFile st).dataCache = st.dataCache := by
  unfold saveFile
  split <;> rfl

theorem saveFile_indexCache (st : MState) : (saveFile st).indexCache = st.indexCache := by
  unfold saveFile
  split <;> rfl

theorem saveFile_of_txnOpen {st : MState} (h : st.isTxnOpen = true) : saveFile st = st := by
  unfold saveFile
  rw [if_pos h]

/-- Successful `insertOne` yields the stamped record stored under the chosen
id, flushed through `saveFile`. -/
theorem insertOne_ok_shape {st : MState} {r : Obj} {i : Option String} {g n : String}
    {st' : MState} {out : Obj} (h : insertOne st r i g n = .ok (st', out)) :
    ∃ newId idx',
      out = setA (setA (setA r "id" (.vStr newId)) "createdAt" (.vStr n)) "updatedAt" (.vStr n) ∧
      st' = saveFile { st with
        indexCache := idx'
        isIndexDirty := true
        dataCache := setA st.dataCache newId out } := by
  simp only [insertOne] at h
  split at h
  · simp at h
  · split at h
    · simp at h
    · split at h
      · simp at h
      · rename_i idxv hAdd
        simp only [Except.ok.injEq, Prod.mk.injEq] at h
        obtain ⟨h1, h2⟩ := h
        refine ⟨_, idxv, h2.symm, ?_⟩
        rw [← h1, ← h2]

/-- While a transaction is open, a successful `insertOne` issues no write:
the persisted files are untouched. -/
theorem insertOne_txn_disk {st : MState} {r : Obj} {i : Option String} {g n : String}
    {st' : MState} {out : Obj} (htxn : st.isTxnOpen = true)
    (h : insertOne st r i g n = .ok (st', out)) :
    st'.diskData = st.diskData ∧ st'.diskIndex = st.diskIndex := by
  obtain ⟨newId, idx', hout, hst⟩ := insertOne_ok_shape h
  rw [hst]
  simp only [saveFile, htxn, if_true]
  exact ⟨trivial, trivial⟩

-- ### Claim theorems (first group)

/-- C1: the spec claims the §3 index-cache invariant holds in every state
reachable from the empty store; the code violates it. Two `insertOne` calls
with different values of the indexed field `name` reach a state (both calls
succeed) in which record "1" is no longer indexed anywhere: `addToIndex`
replaced the whole `name` field map when the unseen value "b" arrived. -/
theorem c1_invariant_violated_by_two_inserts :
    c1Run.map idxInvariantB = Except.ok false := by rfl

/-- C2: `addToIndex` is claimed to preserve every pre-existing index entry
while appending the new id. Counterexample: with `name → {"a": ["1"]}`
present, indexing a record with the fresh value "b" erases the `"a" → ["1"]`
list entirely (the lazy-init branch overwrites the whole field map). -/
theorem c2_addToIndex_drops_sibling_entry :
    addToIndex c1Schema c2Idx [("name", .vStr "b")] "2"
      = .ok [("name", [("b", ["2"])])] ∧
    (lookupA c2Idx "name").bind (fun m => lookupA m "a") = some ["1"] ∧
    ((lookupA ([("name", [("b", ["2"])])] : IndexCache) "name").bind
      (fun m => lookupA m "a")) = none :=
  ⟨rfl, rfl, rfl⟩

/-- C4: `updateInIndex` is claimed never to fail and to lazily create missing
value lists. Counterexample: updating the indexed field `name` from "a" to the
fresh value "b" crashes (JS `TypeError`: `.push` on `undefined`), after having
already removed the id from the old list — the error branch is reachable. -/
theorem c4_updateInIndex_crashes_on_fresh_value :
    updateInIndex c1Schema c2Idx [("name", .vStr "a")] [("name", .vStr "b")] "1"
      = .error (.typeErr, [("name", [("a", ([] : List String))])]) := by rfl

/-- C9: `deleteAll` empties the data cache (`countAll` becomes 0) but leaves
the in-memory index cache entirely unmodified, so index entries for the
deleted records survive as stale entries. -/
theorem c9_deleteAll_empties_data_keeps_index (st : MState) :
    countAll (deleteAll st) = 0 ∧ (deleteAll st).indexCache = st.indexCache := by
  unfold deleteAll countAll saveFile
  by_cases h : st.isTxnOpen <;> simp [h]

/-- Counterexample to C5 as stated: `active` is declared `Boolean`, the record
holds the number `0` — present and of mismatching runtime type — yet
`validateSchema` accepts it, because the type check is guarded by JS
truthiness of the value. -/
theorem c5_falsy_mismatch_accepted :
    validateSchema c5Schema [] [] c5Rec false = .ok () ∧
    lookupA c5Rec "active" = some (.vNum 0) ∧
    Value.constructorIs (.vNum 0) JType.jsBoolean = false :=
  ⟨rfl, rfl, rfl⟩

/-- Counterexample to C6 as stated: a failing `updateById` (schema validation
error on `age`) leaves the data cache intact but has already reordered the
index list of `name` from `["1", "2"]` to `["2", "1"]` — the index cache is
not "exactly as it was". -/
theorem c6_failed_update_mutates_index :
    updateById c6St "1" c6Upd "t2" = .error (.schemaValidation, c6StErr) ∧
    c6StErr.indexCache ≠ c6St.indexCache ∧
    c6StErr.dataCache = c6St.dataCache := by
  refine ⟨by rfl, ?_, rfl⟩
  decide

/-- Counterexample to C3 as stated: the empty predicate object has all its
keys (vacuously) declared, the state satisfies the §3 invariant, and every
record (vacuously) matches every predicate, yet `find` returns the empty list
instead of all records. -/
theorem c3_empty_predicates_returns_nothing :
    SatisfiesIdxInv c3Schema c3Dc [] ∧
    find c3Schema c3Dc [] [] = .ok [] ∧
    ("1", c3Rec) ∈ c3Dc ∧
    (∀ p ∈ ([] : List (String × Value)), lookupA c3Rec p.1 = some p.2) := by
  refine ⟨⟨?_, ?_⟩, rfl, by simp [c3Dc], by simp⟩
  · intro pr hpr f hf
    exfalso
    unfold isIndexedField at hf
    cases hl : lookupA c3Schema f with
    | none => rw [hl] at hf; simp at hf
    | some fd =>
      rw [hl] at hf
      have hmem := mem_of_lookupA_eq_some hl
      have : fd = { type := .jsNumber } := by
        simp [c3Schema] at hmem
        exact hmem.2
      rw [this] at hf
      simp at hf
  · intro f hf m hm
    rw [lookupA_nil] at hm
    exact Option.noConfusion hm


/-- C8: round-trip — for every record that passes validation (i.e. whenever
`insertOne` succeeds), looking up the id of the returned record in the data
cache yields exactly that stamped record. -/
theorem c8_insertOne_findById_roundtrip (st : MState) (r : Obj) (i : Option String)
    (g n : String) (st' : MState) (out : Obj)
    (h : insertOne st r i g n = .ok (st', out)) :
    ∃ theId, lookupA out "id" = some (.vStr theId) ∧ findById st' theId = some out := by
  obtain ⟨newId, idx', hout, hst⟩ := insertOne_ok_shape h
  refine ⟨newId, ?_, ?_⟩
  · rw [hout, lookupA_setA_ne (show "id" ≠ "updatedAt" by decide),
      lookupA_setA_ne (show "id" ≠ "createdAt" by decide), lookupA_setA_self]
  · unfold findById
    rw [hst, saveFile_dataCache]
    exact lookupA_setA_self _ _ _

/-- Witness for C8 at a concrete input. -/
theorem c8_roundtrip_witness :
    ∃ theId, lookupA w8Rec "id" = some (.vStr theId) ∧ findById w8St theId = some w8Rec :=
  c8_insertOne_findById_roundtrip c1St0 [("name", .vStr "a")] (some "1") "u1" "t1"
    w8St w8Rec (by rfl)

/-- C7: transaction rollback — starting from a persisted state with zero
records, `openTransaction(); insertOne(r); abortTransaction(); initialize()`
leaves `countAll() == 0`: no write is issued while the transaction is open and
abort reloads both caches from disk. -/
theorem c7_txn_rollback (st : MState) (r : Obj) (i : Option String) (g n : String)
    (st2 : MState) (out : Obj) (hdisk : st.diskData = [])
    (h : insertOne (openTransaction st) r i g n = .ok (st2, out)) :
    countAll (initializeModel (abortTransaction st2)) = 0 := by
  have htxn : (openTransaction st).isTxnOpen = true := rfl
  have hd : st2.diskData = (openTransaction st).diskData := (insertOne_txn_disk htxn h).1
  have hd2 : st2.diskData = [] := by
    rw [hd]
    exact hdisk
  simp [countAll, initializeModel, abortTransaction, loadFile, hd2]

/-- Witness for C7 at a concrete input. -/
theorem c7_txn_rollback_witness :
    countAll (initializeModel (abortTransaction w7St2)) = 0 :=
  c7_txn_rollback c1St0 [("name", .vStr "a")] (some "1") "u1" "t1" w7St2 w8Rec rfl (by rfl)

/-- If the predicate's key is declared, one `find` step never throws. -/
theorem findStep_ok_of_some (schema : SchemaType) (dc : DataCacheType) (idx : IndexCache)
    (c : Nat) (p : String × Option Value) (tdc : DataCacheType) {fd : FieldDesc}
    (h : lookupA schema p.1 = some fd) :
    ∃ t', findStep schema dc idx c p tdc = .ok t' := by
  unfold findStep
  split
  · rename_i heq
    rw [h] at heq
    exact Option.noConfusion heq
  · split
    · exact ⟨_, rfl⟩
    · exact ⟨_, rfl⟩

/-- The `find` loop succeeds when every predicate key is declared. -/
theorem findLoop_ok_of_declared {schema : SchemaType} {dc : DataCacheType} {idx : IndexCache}
    {sp : List (String × Option Value)}
    (hdecl : ∀ p ∈ sp, (lookupA schema p.1).isSome = true) :
    ∀ c tdc, ∃ t', findLoop schema dc idx sp c tdc = .ok t' := by
  induction sp with
  | nil => exact fun c tdc => ⟨tdc, rfl⟩
  | cons p ps ih =>
    intro c tdc
    obtain ⟨fd, hfd⟩ := Option.isSome_iff_exists.mp (hdecl p (List.mem_cons_self _ _))
    obtain ⟨t1, ht1⟩ := findStep_ok_of_some schema dc idx c p tdc hfd
    unfold findLoop
    rw [ht1]
    exact ih (fun q hq => hdecl q (List.mem_cons_of_mem _ hq)) (c + 1) t1

/-- The `find` loop throws a `TypeError` as soon as some predicate key is
undeclared (the dead `size` short-circuit never stops it earlier). -/
theorem findLoop_err_of_undeclared {schema : SchemaType} {dc : DataCacheType} {idx : IndexCache}
    {sp : List (String × Option Value)}
    (h : ∃ p ∈ sp, lookupA schema p.1 = none) :
    ∀ c tdc, findLoop schema dc idx sp c tdc = .error .typeErr := by
  induction sp with
  | nil => simp at h
  | cons p ps ih =>
    intro c tdc
    cases hl : lookupA schema p.1 with
    | none =>
      have hstep : findStep schema dc idx c p tdc = .error .typeErr := by
        unfold findStep
        rw [hl]
      unfold findLoop
      rw [hstep]
    | some fd =>
      have hrest : ∃ q ∈ ps, lookupA schema q.1 = none := by
        obtain ⟨q, hq, hqn⟩ := h
        rcases List.mem_cons.mp hq with rfl | hq'
        · rw [hl] at hqn
          exact Option.noConfusion hqn
        · exact ⟨q, hq', hqn⟩
      obtain ⟨t1, ht1⟩ := findStep_ok_of_some schema dc idx c p tdc hl
      unfold findLoop
      rw [ht1]
      exact ih hrest (c + 1) t1

/-- C10: `find` is total exactly on declared fields — it returns normally when
every search key is a declared schema field, and throws (a JS `TypeError`)
when any search key is undeclared, rather than ignoring it or returning
empty. -/
theorem find_ok_of_declared {schema : SchemaType} (dc : DataCacheType) (idx : IndexCache)
    {sp : List (String × Option Value)}
    (hdecl : ∀ p ∈ sp, (lookupA schema p.1).isSome = true) :
    ∃ res, find schema dc idx sp = .ok res := by
  obtain ⟨t', ht⟩ := findLoop_ok_of_declared hdecl 1 []
  unfold find
  split
  · rename_i e heq
    rw [ht] at heq
    exact Except.noConfusion heq
  · exact ⟨_, rfl⟩

theorem find_err_of_undeclared {schema : SchemaType} (dc : DataCacheType) (idx : IndexCache)
    {sp : List (String × Option Value)}
    (hund : ∃ p ∈ sp, lookupA schema p.1 = none) :
    find schema dc idx sp = .error .typeErr := by
  unfold find
  split
  · rename_i e heq
    rw [findLoop_err_of_undeclared hund 1 []] at heq
    injection heq with he
    rw [← he]
  · rename_i t heq
    rw [findLoop_err_of_undeclared hund 1 []] at heq
    exact Except.noConfusion heq

theorem c10_find_total_iff_declared (schema : SchemaType) (dc : DataCacheType)
    (idx : IndexCache) (sp : List (String × Option Value)) :
    ((∀ p ∈ sp, (lookupA schema p.1).isSome = true) → ∃ res, find schema dc idx sp = .ok res) ∧
    ((∃ p ∈ sp, lookupA schema p.1 = none) → find schema dc idx sp = .error .typeErr) :=
  ⟨fun hdecl => find_ok_of_declared dc idx hdecl, fun hund => find_err_of_undeclared dc idx hund⟩

/-- Witness for C10 at concrete inputs: a declared-field search succeeds, an
undeclared-field search throws. -/
theorem c10_find_total_witness :
    (∃ res, find c1Schema [] [] [("name", some (.vStr "a"))] = .ok res) ∧
    find c1Schema [] [] [("bogus", some (.vStr "a"))] = .error .typeErr :=
  ⟨(c10_find_total_iff_declared c1Schema [] [] [("name", some (.vStr "a"))]).1 (by decide),
   (c10_find_total_iff_declared c1Schema [] [] [("bogus", some (.vStr "a"))]).2
     ⟨("bogus", some (.vStr "a")), by simp, by rfl⟩⟩

-- ### Nonemptiness of JS stringification for truthy values

theorem toDigitsCore_ne_nil_of_ne_nil (b : Nat) (f n : Nat) (ds : List Char) (h : ds ≠ []) :
    Nat.toDigitsCore b f n ds ≠ [] := by
  induction f generalizing n ds with
  | zero => simpa [Nat.toDigitsCore] using h
  | succ f ih =>
    unfold Nat.toDigitsCore
    dsimp only
    split
    · simp
    · exact ih _ _ (by simp)

theorem nat_toDigits_ne_nil (b n : Nat) : Nat.toDigits b n ≠ [] := by
  unfold Nat.toDigits
  unfold Nat.toDigitsCore
  dsimp only
  split
  · simp
  · exact toDigitsCore_ne_nil_of_ne_nil b n (n / b) _ (by simp)

theorem nat_repr_ne_empty (n : Nat) : Nat.repr n ≠ "" := by
  unfold Nat.repr
  intro h
  exact nat_toDigits_ne_nil 10 n (congrArg String.data h)

theorem int_repr_ne_empty (n : Int) : Int.repr n ≠ "" := by
  cases n with
  | ofNat m => exact nat_repr_ne_empty m
  | negSucc m =>
    unfold Int.repr
    intro h
    have hlen := congrArg String.length h
    rw [String.length_append] at hlen
    rw [show ("-" : String).length = 1 from rfl, show ("" : String).length = 0 from rfl] at hlen
    omega

theorem truthy_toKey_ne_empty {v : Value} (h : v.truthy = true) : v.toKey ≠ "" := by
  cases v with
  | vStr s => simpa [Value.truthy, Value.toKey] using h
  | vNum n => exact int_repr_ne_empty n
  | vBool b =>
    cases b with
    | true => simp [Value.toKey]
    | false => simp [Value.truthy] at h

theorem optStrTruthy_of_optTruthy {rv : Option Value} (h : optTruthy rv = true) :
    optStrTruthy rv = true := by
  cases rv with
  | none => simp [optTruthy] at h
  | some v =>
    have := truthy_toKey_ne_empty (by simpa [optTruthy] using h)
    simp [optStrTruthy, this]

-- ### Schema-validation lemmas

theorem lookupA_isSome_of_mem {α : Type} {m : List (String × α)} {e : String × α}
    (h : e ∈ m) : (lookupA m e.1).isSome = true := by
  rw [lookupA_isSome_iff]
  exact List.mem_map.mpr ⟨e, h, rfl⟩

/-- Every exit of the validation loop is either success or a
`SchemaValidationError`; the internal uniqueness query cannot throw because
its single key is a declared schema field. -/
theorem validateFields_ok_or_sv (schema : SchemaType) (dc : DataCacheType) (idx : IndexCache)
    (record : Obj) (isUpdate : Bool) :
    ∀ fields : List (String × FieldDesc), (∀ e ∈ fields, (lookupA schema e.1).isSome = true) →
      validateFields schema dc idx record isUpdate fields = .ok () ∨
      validateFields schema dc idx record isUpdate fields = .error .schemaValidation := by
  intro fields
  induction fields with
  | nil => exact fun _ => Or.inl rfl
  | cons e rest ih =>
    intro hd
    obtain ⟨key, fd⟩ := e
    have hrest : ∀ q ∈ rest, (lookupA schema q.1).isSome = true :=
      fun q hq => hd q (List.mem_cons_of_mem _ hq)
    unfold validateFields
    dsimp only
    split
    · exact Or.inr rfl
    · split
      · exact Or.inr rfl
      · split
        · exact Or.inr rfl
        · split
          · obtain ⟨res, hres⟩ := find_ok_of_declared dc idx
              (show ∀ p ∈ [(key, lookupA record key)], (lookupA schema p.1).isSome = true by
                intro p hp
                rw [List.mem_singleton] at hp
                rw [hp]
                exact hd (key, fd) (List.mem_cons_self _ _))
            split
            · rename_i e2 heq
              rw [hres] at heq
              exact Except.noConfusion heq
            · rename_i l heq
              split <;> split
              · exact Or.inr rfl
              · exact ih hrest
              · exact Or.inr rfl
              · exact ih hrest
          · exact ih hrest

/-- The validation loop fails once it reaches a field whose present value is
truthy and of the wrong runtime type (or throws on an earlier field). -/
theorem validateFields_fails_of_truthy_mismatch (schema : SchemaType) (dc : DataCacheType)
    (idx : IndexCache) (record : Obj) (isUpdate : Bool) :
    ∀ fields : List (String × FieldDesc), (∀ e ∈ fields, (lookupA schema e.1).isSome = true) →
      (∃ e ∈ fields, ∃ v, lookupA record e.1 = some v ∧ v.truthy = true ∧
        v.constructorIs e.2.type = false) →
      validateFields schema dc idx record isUpdate fields = .error .schemaValidation := by
  intro fields
  induction fields with
  | nil => intro _ hex; simp at hex
  | cons e rest ih =>
    intro hd hex
    obtain ⟨key, fd⟩ := e
    have hrest : ∀ q ∈ rest, (lookupA schema q.1).isSome = true :=
      fun q hq => hd q (List.mem_cons_of_mem _ hq)
    unfold validateFields
    dsimp only
    split
    · rfl
    · split
      · rfl
      · rename_i hreq htyp
        have hex' : ∃ q ∈ rest, ∃ v, lookupA record q.1 = some v ∧ v.truthy = true ∧
            v.constructorIs q.2.type = false := by
          obtain ⟨q, hq, v, hv, htr, hmis⟩ := hex
          rcases List.mem_cons.mp hq with heq | hq'
          · exfalso
            apply htyp
            rw [heq] at hv hmis
            simp only at hv hmis
            have htruthy : optTruthy (lookupA record key) = true := by
              rw [hv]
              simpa [optTruthy] using htr
            unfold typeCheckFails
            rw [htruthy, optStrTruthy_of_optTruthy htruthy, hv]
            simp [hmis]
          · exact ⟨q, hq', v, hv, htr, hmis⟩
        split
        · rfl
        · split
          · obtain ⟨res, hres⟩ := find_ok_of_declared dc idx
              (show ∀ p ∈ [(key, lookupA record key)], (lookupA schema p.1).isSome = true by
                intro p hp
                rw [List.mem_singleton] at hp
                rw [hp]
                exact hd (key, fd) (List.mem_cons_self _ _))
            split
            · rename_i e2 heq
              rw [hres] at heq
              exact Except.noConfusion heq
            · split <;> try split
              all_goals first
                | rfl
                | exact ih hrest hex'
          · exact ih hrest hex'

/-- C5 amended: type validation fires for every field whose present value is
*truthy* and mismatches the declared type — `validateSchema` then throws
`SchemaValidationError`. (As stated, the claim fails for falsy values such as
`0`, `false` and `""`, which the truthiness guard exempts from the type
check.) -/
theorem c5_validateSchema_truthy_mismatch_fails (schema : SchemaType) (dc : DataCacheType)
    (idx : IndexCache) (record : Obj) (isUpdate : Bool)
    (h : ∃ e ∈ schema, ∃ v, lookupA record e.1 = some v ∧ v.truthy = true ∧
      v.constructorIs e.2.type = false) :
    validateSchema schema dc idx record isUpdate = .error .schemaValidation :=
  validateFields_fails_of_truthy_mismatch schema dc idx record isUpdate schema
    (fun _e he => lookupA_isSome_of_mem he) h

/-- Witness for the amended C5 at a concrete input: `active : Boolean` holding
the truthy number `5`. -/
theorem c5_truthy_mismatch_witness :
    validateSchema c5Schema [] [] [("active", .vNum 5)] false = .error .schemaValidation :=
  c5_validateSchema_truthy_mismatch_fails c5Schema [] [] [("active", .vNum 5)] false
    ⟨("active", { type := .jsBoolean }), by simp [c5Schema], .vNum 5, by rfl, by rfl, by rfl⟩

/-- C6 amended: whenever `updateById` throws — in particular on a
`SchemaValidationError` — the data cache and both persisted files are exactly
as before the call; only the index cache (and its dirty flag) may already be
mutated, because `updateInIndex` runs before validation. -/
theorem c6_updateById_error_preserves_dataCache (st : MState) (recordId : String)
    (newRecord : Obj) (now : String) (e : Err) (st' : MState)
    (h : updateById st recordId newRecord now = .error (e, st')) :
    st'.dataCache = st.dataCache ∧ st'.diskData = st.diskData ∧
    st'.diskIndex = st.diskIndex := by
  unfold updateById at h
  split at h
  all_goals try (dsimp only at h)
  all_goals try (split at h)
  all_goals try (split at h)
  all_goals first
    | (simp only [Except.error.injEq, Prod.mk.injEq] at h
       rw [← h.2]
       exact ⟨rfl, rfl, rfl⟩)
    | simp at h

/-- Witness for the amended C6 at the concrete counterexample input. -/
theorem c6_error_preserves_dataCache_witness :
    c6StErr.dataCache = c6St.dataCache ∧ c6StErr.diskData = c6St.diskData ∧
    c6StErr.diskIndex = c6St.diskIndex :=
  c6_updateById_error_preserves_dataCache c6St "1" c6Upd "t2" .schemaValidation c6StErr (by rfl)

-- ### Lemmas about the grafted match counter

theorem lookupA_withCount_ne (r : Obj) (c : Int) {x : String} (hx : x ≠ "count") :
    lookupA (withCount r c) x = lookupA r x := by
  unfold withCount
  rw [lookupA_append]
  have h2 : lookupA [("count", Value.vNum c)] x = none := by
    rw [lookupA_cons, lookupA_nil, if_neg (fun hh => hx hh.symm)]
  rw [h2]
  cases lookupA r x <;> rfl

theorem lookupA_withCount_count {r : Obj} (c : Int) (h : lookupA r "count" = none) :
    lookupA (withCount r c) "count" = some (.vNum c) := by
  unfold withCount
  rw [lookupA_append, h]
  rfl

theorem incCount_no_count {r : Obj} (h : lookupA r "count" = none) :
    incCount r = withCount r 1 := by
  unfold incCount jsCountVal
  rw [h, setA_eq_append_of_none _ h]
  show r ++ [("count", Value.vNum (0 + 1))] = r ++ [("count", Value.vNum 1)]
  norm_num

theorem incCount_withCount {r : Obj} {c : Int} (h : lookupA r "count" = none) (hc : c ≠ 0) :
    incCount (withCount r c) = withCount r (c + 1) := by
  unfold incCount jsCountVal
  rw [lookupA_withCount_count c h]
  have ht : (Value.vNum c).truthy = true := by simp [Value.truthy, hc]
  dsimp only
  rw [if_pos ht]
  show setA (withCount r c) "count" (Value.vNum (c + 1)) = withCount r (c + 1)
  unfold withCount
  rw [setA_append_key _ _ h]

theorem delA_withCount {r : Obj} (c : Int) (h : lookupA r "count" = none) :
    delA (withCount r c) "count" = r := by
  unfold withCount delA
  rw [List.filter_append]
  have h1 : List.filter (fun p => p.1 != "count") r = r := by
    have := delA_eq_self_of_none h
    unfold delA at this
    exact this
  rw [h1]
  simp

theorem recIdKey_of_id {r : Obj} {k : String} (h : lookupA r "id" = some (.vStr k)) :
    recIdKey r = k := by
  unfold recIdKey
  rw [h]
  rfl

theorem recIdKey_withCount {r : Obj} (c : Int) : recIdKey (withCount r c) = recIdKey r := by
  unfold recIdKey
  rw [lookupA_withCount_ne r c (by decide)]

-- ### Lemmas about the match count `cntM`

theorem cntM_append (r : Obj) (qs : List (String × Value)) (q : String × Value) :
    cntM r (qs ++ [q]) = cntM r qs + (if matchB r q then 1 else 0) := by
  unfold cntM
  rw [List.filter_append, List.length_append]
  cases h : matchB r q <;> simp [List.filter, h]

theorem cntM_single (r : Obj) (p : String × Value) :
    cntM r [p] = if matchB r p then 1 else 0 := by
  unfold cntM
  cases h : matchB r p <;> simp [List.filter, h]

theorem cntM_pos {r : Obj} {p0 : String × Value} (qs : List (String × Value))
    (h : matchB r p0 = true) : cntM r (p0 :: qs) ≠ 0 := by
  unfold cntM
  rw [List.filter_cons, if_pos (by simp [h])]
  simp
  omega

theorem cntM_eq_length_iff (r : Obj) (qs : List (String × Value)) :
    cntM r qs = (qs.length : Int) ↔ ∀ p ∈ qs, matchB r p = true := by
  unfold cntM
  constructor
  · intro h
    have hlen : (qs.filter (matchB r)).length = qs.length := by exact_mod_cast h
    have hsub : List.Sublist (qs.filter (matchB r)) qs := List.filter_sublist qs
    have := hsub.eq_of_length hlen
    exact List.filter_eq_self.mp this
  · intro h
    rw [List.filter_eq_self.mpr h]

-- ### Characterization of the per-predicate folds inside `find`

theorem lookupA_eq_none_of_not_mem {α : Type} {m : List (String × α)} {k : String}
    (h : k ∉ m.map Prod.fst) : lookupA m k = none := by
  cases hl : lookupA m k with
  | none => rfl
  | some v => exact absurd ((lookupA_isSome_iff m k).mp (by rw [hl]; rfl)) h

theorem lookupA_map_keyfix {α : Type} (f : (String × α) → (String × α))
    (hf : ∀ e, (f e).1 = e.1) (m : List (String × α)) (k : String) :
    lookupA (m.map f) k = (lookupA m k).map (fun v => (f (k, v)).2) := by
  induction m with
  | nil => rfl
  | cons a m ih =>
    obtain ⟨a1, a2⟩ := a
    rw [List.map_cons, lookupA_cons, lookupA_cons]
    by_cases hak : a1 = k
    · subst hak
      rw [if_pos (hf (a1, a2)), if_pos rfl]
      rfl
    · rw [if_neg (by rw [hf (a1, a2)]; exact hak), if_neg hak, ih]

theorem not_mem_left_of_nodup_middle {α : Type} {l1 l2 : List α} {a : α}
    (h : (l1 ++ a :: l2).Nodup) : a ∉ l1 ∧ a ∉ l2 := by
  rw [List.nodup_middle, List.nodup_cons] at h
  exact ⟨fun hm => h.1 (List.mem_append.mpr (Or.inl hm)),
         fun hm => h.1 (List.mem_append.mpr (Or.inr hm))⟩

/-- Later-pass indexed intersection: after folding an id list, the entry of
any key is its original entry incremented once per occurrence of that key in
the list. -/
theorem foldIdxK_lookup (ids : List String) (tdc : DataCacheType) (k : String) :
    lookupA (ids.foldl (fun tc dbId =>
      match lookupA tc dbId with
      | some record => setA tc dbId (incCount record)
      | none => tc) tdc) k
    = (lookupA tdc k).map (fun o => incCount^[ids.count k] o) := by
  induction ids generalizing tdc with
  | nil =>
    rw [List.foldl_nil]
    cases h : lookupA tdc k <;> simp
  | cons i rest ih =>
    rw [List.foldl_cons]
    cases hl : lookupA tdc i with
    | some o =>
      dsimp only
      rw [ih]
      by_cases hik : k = i
      · subst hik
        rw [lookupA_setA_self, hl, List.count_cons_self]
        simp [Function.iterate_succ_apply]
      · rw [lookupA_setA_ne hik, List.count_cons_of_ne hik]
    | none =>
      dsimp only
      rw [ih]
      by_cases hik : k = i
      · subst hik
        rw [hl, List.count_cons_self]
        simp
      · rw [List.count_cons_of_ne hik]

theorem foldIdxK_keys (ids : List String) (tdc : DataCacheType) :
    ((ids.foldl (fun tc dbId =>
      match lookupA tc dbId with
      | some record => setA tc dbId (incCount record)
      | none => tc) tdc).map Prod.fst) = tdc.map Prod.fst := by
  induction ids generalizing tdc with
  | nil => rfl
  | cons i rest ih =>
    rw [List.foldl_cons]
    cases hl : lookupA tdc i with
    | some o =>
      dsimp only
      rw [ih, keys_setA_of_isSome _ (by rw [hl]; rfl)]
    | none =>
      dsimp only
      rw [ih]

/-- First-pass indexed seeding: a key ends up in the temp cache iff it lies in
the id list and names a data-cache record; its entry is that record with a
fresh counter. -/
theorem foldIdx1_lookup (ids : List String) (dc : DataCacheType) (tdc : DataCacheType)
    (k : String) :
    lookupA (ids.foldl (fun tc dbId =>
      match lookupA dc dbId with
      | some record => setA tc dbId (incCount record)
      | none => tc) tdc) k
    = match lookupA dc k with
      | some o => if k ∈ ids then some (incCount o) else lookupA tdc k
      | none => lookupA tdc k := by
  induction ids generalizing tdc with
  | nil =>
    rw [List.foldl_nil]
    cases hdk : lookupA dc k <;> simp
  | cons i rest ih =>
    rw [List.foldl_cons]
    cases hl : lookupA dc i with
    | some o =>
      dsimp only
      rw [ih]
      cases hdk : lookupA dc k with
      | some ok =>
        dsimp only
        by_cases hik : k = i
        · subst hik
          rw [hl] at hdk
          injection hdk with ho
          subst ho
          rw [if_pos (List.mem_cons_self _ _)]
          by_cases hmem : k ∈ rest
          · rw [if_pos hmem]
          · rw [if_neg hmem, lookupA_setA_self]
        · rw [lookupA_setA_ne hik]
          simp [List.mem_cons, hik]
      | none =>
        dsimp only
        by_cases hik : k = i
        · subst hik
          rw [hl] at hdk
          exact Option.noConfusion hdk
        · exact lookupA_setA_ne hik
    | none =>
      dsimp only
      rw [ih]
      cases hdk : lookupA dc k with
      | some ok =>
        dsimp only
        by_cases hik : k = i
        · subst hik
          rw [hl] at hdk
          exact Option.noConfusion hdk
        · simp [List.mem_cons, hik]
      | none => rfl

theorem foldIdx1_nodup (ids : List String) (dc : DataCacheType) (tdc : DataCacheType)
    (h : (tdc.map Prod.fst).Nodup) :
    (((ids.foldl (fun tc dbId =>
      match lookupA dc dbId with
      | some record => setA tc dbId (incCount record)
      | none => tc) tdc).map Prod.fst)).Nodup := by
  induction ids generalizing tdc with
  | nil => exact h
  | cons i rest ih =>
    rw [List.foldl_cons]
    cases hl : lookupA dc i with
    | some o =>
      dsimp only
      exact ih _ (nodup_keys_setA _ h)
    | none =>
      dsimp only
      exact ih _ h

/-- First-pass full scan: seeding from the data-cache snapshot appends, in
order, each matching record keyed by its id, counter set to one increment. -/
theorem foldSnap1_eq (dc : DataCacheType) (q : String × Option Value)
    (hid : ∀ pr ∈ dc, lookupA pr.2 "id" = some (.vStr pr.1))
    (hnd : (dc.map Prod.fst).Nodup) :
    ∀ acc : DataCacheType, (∀ pr ∈ dc, lookupA acc pr.1 = none) →
    (dc.map (fun e => e.2)).foldl (fun tc dcValue =>
        if lookupA dcValue q.1 == q.2 then setA tc (recIdKey dcValue) (incCount dcValue)
        else tc) acc
    = acc ++ (dc.filter (fun pr => lookupA pr.2 q.1 == q.2)).map
        (fun pr => (pr.1, incCount pr.2)) := by
  induction dc with
  | nil =>
    intro acc _
    simp
  | cons e0 rest ih =>
    intro acc hacc
    obtain ⟨k0, r0⟩ := e0
    have hid0 : lookupA r0 "id" = some (.vStr k0) := hid (k0, r0) (List.mem_cons_self _ _)
    have hrk : recIdKey r0 = k0 := recIdKey_of_id hid0
    have hidr : ∀ pr ∈ rest, lookupA pr.2 "id" = some (.vStr pr.1) :=
      fun pr hpr => hid pr (List.mem_cons_of_mem _ hpr)
    have hndr : (rest.map Prod.fst).Nodup := by
      rw [List.map_cons, List.nodup_cons] at hnd
      exact hnd.2
    have hk0r : k0 ∉ rest.map Prod.fst := by
      rw [List.map_cons, List.nodup_cons] at hnd
      exact hnd.1
    rw [List.map_cons, List.foldl_cons]
    by_cases hq : (lookupA r0 q.1 == q.2) = true
    · rw [if_pos hq, hrk, setA_eq_append_of_none _ (hacc (k0, r0) (List.mem_cons_self _ _))]
      have hacc' : ∀ pr ∈ rest, lookupA (acc ++ [(k0, incCount r0)]) pr.1 = none := by
        intro pr hpr
        have hne : pr.1 ≠ k0 := fun hh => hk0r (hh ▸ List.mem_map.mpr ⟨pr, hpr, rfl⟩)
        rw [lookupA_append, hacc pr (List.mem_cons_of_mem _ hpr), lookupA_cons, lookupA_nil,
          if_neg (fun hh => hne hh.symm)]
        rfl
      rw [ih hidr hndr (acc ++ [(k0, incCount r0)]) hacc']
      rw [List.filter_cons]
      rw [if_pos hq]
      rw [List.map_cons, List.append_assoc]
      rfl
    · rw [if_neg hq]
      rw [ih hidr hndr acc (fun pr hpr => hacc pr (List.mem_cons_of_mem _ hpr))]
      rw [List.filter_cons]
      rw [if_neg hq]

/-- Later-pass full scan over the snapshot of the temp cache: an in-place
pointwise update — matching entries get their counter incremented, the rest
stay untouched; keys and order are unchanged. -/
theorem foldSnapK_eq (q : String × Option Value) :
    ∀ (rest done : DataCacheType),
    ((done ++ rest).map Prod.fst).Nodup →
    (∀ pr ∈ rest, recIdKey pr.2 = pr.1) →
    (rest.map (fun e => e.2)).foldl (fun tc dcValue =>
        if lookupA dcValue q.1 == q.2 then setA tc (recIdKey dcValue) (incCount dcValue)
        else tc) (done ++ rest)
    = done ++ rest.map (fun pr =>
        if lookupA pr.2 q.1 == q.2 then (pr.1, incCount pr.2) else pr) := by
  intro rest
  induction rest with
  | nil =>
    intro done _ _
    simp
  | cons e0 rest' ih =>
    intro done hnd hkey
    obtain ⟨k0, r0⟩ := e0
    have hk0 : recIdKey r0 = k0 := hkey (k0, r0) (List.mem_cons_self _ _)
    have hkeyr : ∀ pr ∈ rest', recIdKey pr.2 = pr.1 :=
      fun pr h => hkey pr (List.mem_cons_of_mem _ h)
    have hmid : k0 ∉ done.map Prod.fst ∧ k0 ∉ rest'.map Prod.fst := by
      have hnd2 : (done.map Prod.fst ++ k0 :: rest'.map Prod.fst).Nodup := by
        simpa [List.map_append] using hnd
      exact not_mem_left_of_nodup_middle hnd2
    rw [List.map_cons, List.foldl_cons]
    by_cases hq : (lookupA r0 q.1 == q.2) = true
    · rw [if_pos hq, hk0, setA_middle _ _ _ (lookupA_eq_none_of_not_mem hmid.1)]
      have hshape : done ++ (k0, incCount r0) :: rest'
          = (done ++ [(k0, incCount r0)]) ++ rest' := by
        simp
      rw [hshape]
      have hnd' : (((done ++ [(k0, incCount r0)]) ++ rest').map Prod.fst).Nodup := by
        simpa [List.map_append] using hnd
      rw [ih (done ++ [(k0, incCount r0)]) hnd' hkeyr]
      rw [List.map_cons, if_pos hq]
      simp
    · rw [if_neg hq]
      have hshape : done ++ (k0, r0) :: rest' = (done ++ [(k0, r0)]) ++ rest' := by
        simp
      rw [hshape]
      have hnd' : (((done ++ [(k0, r0)]) ++ rest').map Prod.fst).Nodup := by
        simpa [List.map_append] using hnd
      rw [ih (done ++ [(k0, r0)]) hnd' hkeyr]
      rw [List.map_cons, if_neg hq]
      simp

/-- The final pass of `find`: pushing every value whose counter equals the
number of predicates, with the counter deleted. -/
theorem foldl_filter_push (l : List Obj) (p : Obj → Bool) (f : Obj → Obj) :
    ∀ acc : List Obj, l.foldl (fun acc v => if p v then acc ++ [f v] else acc) acc
      = acc ++ (l.filter p).map f := by
  induction l with
  | nil =>
    intro acc
    simp
  | cons v rest ih =>
    intro acc
    rw [List.foldl_cons, List.filter_cons]
    by_cases hp : p v = true
    · rw [if_pos hp, if_pos hp, ih, List.map_cons]
      simp
    · rw [if_neg hp, if_neg hp, ih]

-- ### The `find` loop invariant

theorem loopInv_recIdKey {dc : DataCacheType} {p0 : String × Value} {qs : List (String × Value)}
    {tdc : DataCacheType} (hinv : LoopInv dc p0 qs tdc)
    (hid : ∀ pr ∈ dc, lookupA pr.2 "id" = some (.vStr pr.1)) :
    ∀ pr ∈ tdc, recIdKey pr.2 = pr.1 := by
  intro pr hpr
  obtain ⟨hnodup, hkeys, hval⟩ := hinv
  obtain ⟨k, o⟩ := pr
  have hk : k ∈ tdc.map Prod.fst := List.mem_map.mpr ⟨(k, o), hpr, rfl⟩
  obtain ⟨r, hrdc, hm⟩ := hkeys k hk
  have hl := hval k r hrdc hm
  have hl2 : lookupA tdc k = some o := lookupA_eq_some_of_mem hnodup hpr
  rw [hl] at hl2
  injection hl2 with ho
  show recIdKey o = k
  rw [← ho, recIdKey_withCount, recIdKey_of_id (hid (k, r) hrdc)]

/-- One later pass (`counter ≠ 1`) of the predicate loop preserves the
invariant, extending the processed batch by the new predicate. -/
theorem findStep_inv_succ (schema : SchemaType) (dc : DataCacheType) (idx : IndexCache)
    (p0 q : String × Value) (qs : List (String × Value)) (c : Nat) (hc : (c == 1) = false)
    (tdc : DataCacheType) (hinv : LoopInv dc p0 qs tdc)
    (hid : ∀ pr ∈ dc, lookupA pr.2 "id" = some (.vStr pr.1))
    (hcount : ∀ pr ∈ dc, lookupA pr.2 "count" = none)
    (hq1 : q.1 ≠ "count")
    (hidxOK : isIndexedField schema q.1 = true →
      ∀ pr ∈ dc, (dbIdsAt idx q.1 q.2.toKey).count pr.1 = if matchB pr.2 q then 1 else 0)
    {fd : FieldDesc} (hfd : lookupA schema q.1 = some fd) :
    ∃ tdc', findStep schema dc idx c (q.1, some q.2) tdc = .ok tdc' ∧
      LoopInv dc p0 (qs ++ [q]) tdc' := by
  have hkeycons : ∀ pr ∈ tdc, recIdKey pr.2 = pr.1 := loopInv_recIdKey hinv hid
  obtain ⟨hnodup, hkeys, hval⟩ := hinv
  unfold findStep
  dsimp only
  rw [hfd]
  dsimp only
  simp only [hc, Bool.false_eq_true, if_false]
  by_cases hind : (fd.unique || fd.index) = true
  · rw [if_pos hind]
    refine ⟨_, rfl, ?_, ?_, ?_⟩
    · rw [foldIdxK_keys]
      exact hnodup
    · intro k hk
      rw [foldIdxK_keys] at hk
      exact hkeys k hk
    · intro k r hkr hm
      rw [foldIdxK_lookup, hval k r hkr hm]
      have hindexed : isIndexedField schema q.1 = true := by
        unfold isIndexedField
        rw [hfd]
        exact hind
      have hcnt := hidxOK hindexed (k, r) hkr
      have hids : (((lookupA idx q.1).bind (fun m => lookupA m (ovKey (some q.2)))).getD [])
          = dbIdsAt idx q.1 q.2.toKey := rfl
      rw [hids, hcnt]
      rw [show (p0 :: (qs ++ [q])) = ((p0 :: qs) ++ [q]) from rfl, cntM_append]
      by_cases hmq : matchB r q = true
      · rw [if_pos hmq, if_pos hmq]
        simp only [Option.map_some', Function.iterate_one]
        rw [incCount_withCount (hcount (k, r) hkr) (cntM_pos qs hm)]
      · rw [if_neg hmq, if_neg hmq]
        simp only [Option.map_some', Function.iterate_zero, id_eq, add_zero]
  · rw [if_neg hind]
    refine ⟨_, rfl, ?_⟩
    have heq := foldSnapK_eq (q.1, some q.2) tdc [] (by simpa using hnodup) hkeycons
    simp only [List.nil_append] at heq
    rw [heq]
    have hfst : ∀ e : String × Obj,
        ((fun pr => if lookupA pr.2 (q.1, some q.2).1 == (q.1, some q.2).2 then
          (pr.1, incCount pr.2) else pr) e).1 = e.1 := by
      intro e
      by_cases h : (lookupA e.2 q.1 == some q.2) = true <;> simp [h]
    have hkeysEq : (tdc.map (fun pr =>
        if lookupA pr.2 (q.1, some q.2).1 == (q.1, some q.2).2 then
          (pr.1, incCount pr.2) else pr)).map Prod.fst = tdc.map Prod.fst := by
      rw [List.map_map]
      exact List.map_congr_left (fun e _ => hfst e)
    refine ⟨?_, ?_, ?_⟩
    · rw [hkeysEq]
      exact hnodup
    · intro k hk
      rw [hkeysEq] at hk
      exact hkeys k hk
    · intro k r hkr hm
      rw [lookupA_map_keyfix _ hfst, hval k r hkr hm]
      simp only [Option.map_some']
      have hcv : lookupA (withCount r (cntM r (p0 :: qs))) q.1 = lookupA r q.1 :=
        lookupA_withCount_ne _ _ hq1
      rw [hcv]
      rw [show (p0 :: (qs ++ [q])) = ((p0 :: qs) ++ [q]) from rfl, cntM_append]
      by_cases hmq : matchB r q = true
      · rw [if_pos (show (lookupA r q.1 == some q.2) = true from hmq)]
        dsimp only
        rw [incCount_withCount (hcount (k, r) hkr) (cntM_pos qs hm), if_pos hmq]
      · rw [if_neg (show ¬ (lookupA r q.1 == some q.2) = true from hmq)]
        dsimp only
        rw [if_neg hmq, add_zero]

/-- The first pass of the predicate loop establishes the invariant. -/
theorem findStep_inv_one (schema : SchemaType) (dc : DataCacheType) (idx : IndexCache)
    (p0 : String × Value)
    (hid : ∀ pr ∈ dc, lookupA pr.2 "id" = some (.vStr pr.1))
    (hnd : (dc.map Prod.fst).Nodup)
    (hcount : ∀ pr ∈ dc, lookupA pr.2 "count" = none)
    (hidxOK : isIndexedField schema p0.1 = true →
      ∀ pr ∈ dc, (dbIdsAt idx p0.1 p0.2.toKey).count pr.1 = if matchB pr.2 p0 then 1 else 0)
    {fd : FieldDesc} (hfd : lookupA schema p0.1 = some fd) :
    ∃ tdc', findStep schema dc idx 1 (p0.1, some p0.2) [] = .ok tdc' ∧
      LoopInv dc p0 [] tdc' := by
  unfold findStep
  dsimp only
  rw [hfd]
  dsimp only
  simp only [beq_self_eq_true, if_true]
  by_cases hind : (fd.unique || fd.index) = true
  · rw [if_pos hind]
    have hindexed : isIndexedField schema p0.1 = true := by
      unfold isIndexedField
      rw [hfd]
      exact hind
    have hids : (((lookupA idx p0.1).bind (fun m => lookupA m (ovKey (some p0.2)))).getD [])
        = dbIdsAt idx p0.1 p0.2.toKey := rfl
    refine ⟨_, rfl, ?_, ?_, ?_⟩
    · exact foldIdx1_nodup _ _ _ (by simp)
    · intro k hk
      rw [← lookupA_isSome_iff, foldIdx1_lookup] at hk
      cases hdk : lookupA dc k with
      | none =>
        rw [hdk] at hk
        simp [lookupA_nil] at hk
      | some o =>
        rw [hdk] at hk
        dsimp only at hk
        by_cases hmem : k ∈ (((lookupA idx p0.1).bind
            (fun m => lookupA m (ovKey (some p0.2)))).getD [])
        · refine ⟨o, mem_of_lookupA_eq_some hdk, ?_⟩
          by_cases hmo : matchB o p0 = true
          · exact hmo
          · exfalso
            have hcnt := hidxOK hindexed (k, o) (mem_of_lookupA_eq_some hdk)
            rw [if_neg hmo] at hcnt
            rw [hids] at hmem
            exact absurd (List.count_pos_iff.mpr hmem) (by rw [hcnt]; omega)
        · rw [if_neg hmem] at hk
          simp [lookupA_nil] at hk
    · intro k r hkr hm
      rw [foldIdx1_lookup, lookupA_eq_some_of_mem hnd hkr]
      dsimp only
      have hcnt := hidxOK hindexed (k, r) hkr
      rw [if_pos hm] at hcnt
      have hmem : k ∈ (((lookupA idx p0.1).bind
          (fun m => lookupA m (ovKey (some p0.2)))).getD []) := by
        rw [hids]
        exact List.count_pos_iff.mp (by rw [hcnt]; omega)
      rw [if_pos hmem, incCount_no_count (hcount (k, r) hkr), cntM_single, if_pos hm]
  · rw [if_neg hind]
    have heq := foldSnap1_eq dc (p0.1, some p0.2) hid hnd []
      (fun pr _ => lookupA_nil pr.1)
    simp only [List.nil_append] at heq
    refine ⟨_, rfl, ?_⟩
    rw [heq]
    have hkeysSub : ((dc.filter (fun pr => lookupA pr.2 (p0.1, some p0.2).1
        == (p0.1, some p0.2).2)).map
        (fun pr => (pr.1, incCount pr.2))).map Prod.fst
        = (dc.filter (fun pr => lookupA pr.2 (p0.1, some p0.2).1
            == (p0.1, some p0.2).2)).map Prod.fst := by
      rw [List.map_map]
      exact List.map_congr_left (fun e _ => rfl)
    have hnodup' : (((dc.filter (fun pr => lookupA pr.2 (p0.1, some p0.2).1
        == (p0.1, some p0.2).2)).map
        (fun pr => (pr.1, incCount pr.2))).map Prod.fst).Nodup := by
      rw [hkeysSub]
      exact List.Nodup.sublist (List.Sublist.map Prod.fst (List.filter_sublist dc)) hnd
    refine ⟨hnodup', ?_, ?_⟩
    · intro k hk
      rw [hkeysSub] at hk
      obtain ⟨pr, hpr, hprk⟩ := List.mem_map.mp hk
      have hmemf := List.mem_filter.mp hpr
      exact ⟨pr.2, by rw [← hprk]; exact hmemf.1, hmemf.2⟩
    · intro k r hkr hm
      have hmemf : (k, r) ∈ dc.filter (fun pr => lookupA pr.2 (p0.1, some p0.2).1
          == (p0.1, some p0.2).2) :=
        List.mem_filter.mpr ⟨hkr, hm⟩
      have hmemm : (k, incCount r) ∈ (dc.filter (fun pr => lookupA pr.2 (p0.1, some p0.2).1
          == (p0.1, some p0.2).2)).map (fun pr => (pr.1, incCount pr.2)) :=
        List.mem_map.mpr ⟨(k, r), hmemf, rfl⟩
      rw [lookupA_eq_some_of_mem hnodup' hmemm, incCount_no_count (hcount (k, r) hkr),
        cntM_single, if_pos hm]

/-- Running the remaining predicates (counters 2, 3, ...) preserves the loop
invariant across the whole batch. -/
theorem findLoop_inv (schema : SchemaType) (dc : DataCacheType) (idx : IndexCache)
    (p0 : String × Value)
    (hid : ∀ pr ∈ dc, lookupA pr.2 "id" = some (.vStr pr.1))
    (hcount : ∀ pr ∈ dc, lookupA pr.2 "count" = none) :
    ∀ (rest qs : List (String × Value)) (c : Nat), 2 ≤ c →
    (∀ q ∈ rest, q.1 ≠ "count" ∧ (lookupA schema q.1).isSome = true ∧
      (isIndexedField schema q.1 = true →
        ∀ pr ∈ dc, (dbIdsAt idx q.1 q.2.toKey).count pr.1 = if matchB pr.2 q then 1 else 0)) →
    ∀ tdc, LoopInv dc p0 qs tdc →
    ∃ tdc', findLoop schema dc idx (toPredOpt rest) c tdc = .ok tdc' ∧
      LoopInv dc p0 (qs ++ rest) tdc' := by
  intro rest
  induction rest with
  | nil =>
    intro qs c _ _ tdc hinv
    exact ⟨tdc, rfl, by simpa using hinv⟩
  | cons q rest' ih =>
    intro qs c hc hres tdc hinv
    obtain ⟨hq1, hdecl, hidxOK⟩ := hres q (List.mem_cons_self _ _)
    obtain ⟨fd, hfd⟩ := Option.isSome_iff_exists.mp hdecl
    have hcne : (c == 1) = false := by
      rw [beq_eq_false_iff_ne]
      omega
    obtain ⟨tdc1, hstep, hinv1⟩ := findStep_inv_succ schema dc idx p0 q qs c hcne tdc hinv
      hid hcount hq1 hidxOK hfd
    obtain ⟨tdc2, hloop, hinv2⟩ := ih (qs ++ [q]) (c + 1) (by omega)
      (fun q' hq' => hres q' (List.mem_cons_of_mem _ hq')) tdc1 hinv1
    refine ⟨tdc2, ?_, by simpa using hinv2⟩
    rw [show toPredOpt (q :: rest') = (q.1, some q.2) :: toPredOpt rest' from rfl]
    unfold findLoop
    rw [hstep]
    exact hloop

/-- Entries of the temp cache at the end of the loop: each is a matching
data-cache record with the grafted counter. -/
theorem loopInv_entry {dc : DataCacheType} {p0 : String × Value} {qs : List (String × Value)}
    {tdcF : DataCacheType} (hinvF : LoopInv dc p0 qs tdcF) :
    ∀ e ∈ tdcF, ∃ r', (e.1, r') ∈ dc ∧ matchB r' p0 = true ∧
      e.2 = withCount r' (cntM r' (p0 :: qs)) := by
  intro e he
  obtain ⟨hnodupF, hkeysF, hvalF⟩ := hinvF
  obtain ⟨k, o⟩ := e
  have hk : k ∈ tdcF.map Prod.fst := List.mem_map.mpr ⟨(k, o), he, rfl⟩
  obtain ⟨r', hr'dc, hm'⟩ := hkeysF k hk
  have hv := hvalF k r' hr'dc hm'
  have h2 : lookupA tdcF k = some o := lookupA_eq_some_of_mem hnodupF he
  rw [hv] at h2
  injection h2 with h3
  exact ⟨r', hr'dc, hm', h3.symm⟩

/-- The list `find` returns contains no duplicates: distinct temp-cache keys
carry records with distinct ids. -/
theorem find_result_nodup {dc : DataCacheType} {p0 : String × Value}
    {qs : List (String × Value)} {tdcF : DataCacheType} (hinvF : LoopInv dc p0 qs tdcF)
    (hid : ∀ pr ∈ dc, lookupA pr.2 "id" = some (.vStr pr.1))
    (hcount : ∀ pr ∈ dc, lookupA pr.2 "count" = none)
    (φ : Obj → Bool) :
    (((tdcF.map (fun e => e.2)).filter φ).map (fun v => delA v "count")).Nodup := by
  rw [List.filter_map, List.map_map]
  have hkeysF : ((tdcF.filter (φ ∘ fun e => e.2)).map Prod.fst).Nodup :=
    List.Nodup.sublist (List.Sublist.map Prod.fst (List.filter_sublist tdcF)) hinvF.1
  have hgid : ∀ e ∈ tdcF.filter (φ ∘ fun e => e.2),
      lookupA (delA e.2 "count") "id" = some (.vStr e.1) := by
    intro e he
    have he2 := (List.mem_filter.mp he).1
    obtain ⟨r', hr'dc, _, heq⟩ := loopInv_entry hinvF e he2
    rw [heq, delA_withCount _ (hcount (e.1, r') hr'dc)]
    exact hid (e.1, r') hr'dc
  have hpw : (tdcF.filter (φ ∘ fun e => e.2)).Pairwise (fun a b => a.1 ≠ b.1) :=
    List.pairwise_map.mp hkeysF
  have hpw2 : (tdcF.filter (φ ∘ fun e => e.2)).Pairwise
      (fun a b => ((fun v => delA v "count") ∘ fun e => e.2) a
        ≠ ((fun v => delA v "count") ∘ fun e => e.2) b) := by
    refine List.Pairwise.imp_of_mem ?_ hpw
    intro a b ha hb hne heq
    apply hne
    have h1 := hgid a ha
    have h2 := hgid b hb
    rw [show ((fun v => delA v "count") ∘ fun e : String × Obj => e.2) a
        = delA a.2 "count" from rfl,
      show ((fun v => delA v "count") ∘ fun e : String × Obj => e.2) b
        = delA b.2 "count" from rfl] at heq
    rw [heq] at h1
    rw [h1] at h2
    injection h2 with h3
    injection h3

  exact List.pairwise_map.mpr hpw2

/-- Membership in `find`'s result is exactly conjunctive equality over all
predicates, for records of the data cache. -/
theorem find_result_mem_iff {dc : DataCacheType} {p0 : String × Value}
    {rest : List (String × Value)} {tdcF : DataCacheType}
    (hinvF : LoopInv dc p0 rest tdcF)
    (hcount : ∀ pr ∈ dc, lookupA pr.2 "count" = none)
    {n : Int} (hn : n = ((p0 :: rest).length : Int)) (r : Obj) :
    (r ∈ ((tdcF.map (fun e => e.2)).filter
        (fun value => lookupA value "count" == some (.vNum n))).map
        (fun v => delA v "count"))
    ↔ ∃ k, (k, r) ∈ dc ∧ ∀ p ∈ p0 :: rest, lookupA r p.1 = some p.2 := by
  constructor
  · intro hr
    obtain ⟨v, hv, hvr⟩ := List.mem_map.mp hr
    obtain ⟨hvm, hcond⟩ := List.mem_filter.mp hv
    obtain ⟨e, he, hev⟩ := List.mem_map.mp hvm
    obtain ⟨r', hr'dc, hm', heq⟩ := loopInv_entry hinvF e he
    have hc0 : lookupA v "count" = some (.vNum (cntM r' (p0 :: rest))) := by
      rw [← hev, heq]
      exact lookupA_withCount_count _ (hcount (e.1, r') hr'dc)
    rw [hc0] at hcond
    have hcnt : cntM r' (p0 :: rest) = n := by
      have := beq_iff_eq.mp hcond
      injection this with h3
      injection h3
    have hall : ∀ p ∈ p0 :: rest, matchB r' p = true := by
      rw [← cntM_eq_length_iff]
      rw [hcnt, hn]
    have hrr : r = r' := by
      rw [← hvr, ← hev, heq, delA_withCount _ (hcount (e.1, r') hr'dc)]
    refine ⟨e.1, by rw [hrr]; exact hr'dc, ?_⟩
    intro p hp
    have := hall p hp
    rw [hrr]
    unfold matchB at this
    exact beq_iff_eq.mp this
  · rintro ⟨k, hkdc, hall⟩
    have hallB : ∀ p ∈ p0 :: rest, matchB r p = true := by
      intro p hp
      unfold matchB
      rw [hall p hp]
      exact beq_self_eq_true _
    have hm0 : matchB r p0 = true := hallB p0 (List.mem_cons_self _ _)
    have hv := hinvF.2.2 k r hkdc hm0
    have he : (k, withCount r (cntM r (p0 :: rest))) ∈ tdcF := mem_of_lookupA_eq_some hv
    have hcnt : cntM r (p0 :: rest) = n := by
      rw [hn]
      exact (cntM_eq_length_iff r (p0 :: rest)).mpr hallB
    refine List.mem_map.mpr ⟨withCount r (cntM r (p0 :: rest)), List.mem_filter.mpr ⟨?_, ?_⟩, ?_⟩
    · exact List.mem_map.mpr ⟨(k, withCount r (cntM r (p0 :: rest))), he, rfl⟩
    · rw [lookupA_withCount_count _ (hcount (k, r) hkdc), hcnt]
      exact beq_self_eq_true _
    · exact delA_withCount _ (hcount (k, r) hkdc)

/-- C3 amended: on a state whose caches are consistent (data-cache keys equal
record ids and are distinct, no record carries a transient `count` field, the
Index Cache satisfies the §3 invariant) and for a *non-empty* predicate object
over declared schema fields none of which is named `count`, whose values
stringify injectively against the stored values on indexed fields, `find`
returns exactly the records whose value on every predicate field equals the
given value. -/
theorem c3_find_conjunctive_equality (schema : SchemaType) (dc : DataCacheType)
    (idx : IndexCache) (ps : List (String × Value))
    (hne : ps ≠ [])
    (hdecl : ∀ p ∈ ps, (lookupA schema p.1).isSome = true)
    (hnc : ∀ p ∈ ps, p.1 ≠ "count")
    (hid : ∀ pr ∈ dc, lookupA pr.2 "id" = some (.vStr pr.1))
    (hnd : (dc.map Prod.fst).Nodup)
    (hcount : ∀ pr ∈ dc, lookupA pr.2 "count" = none)
    (hinv : SatisfiesIdxInv schema dc idx)
    (hstr : ∀ p ∈ ps, isIndexedField schema p.1 = true →
      ∀ pr ∈ dc, (fieldKey pr.2 p.1 = p.2.toKey ↔ lookupA pr.2 p.1 = some p.2)) :
    ∃ res, find schema dc idx (toPredOpt ps) = .ok res ∧
      res.Nodup ∧
      (∀ r, r ∈ res ↔ ∃ k, (k, r) ∈ dc ∧ ∀ p ∈ ps, lookupA r p.1 = some p.2) := by
  have hfuse : ∀ p ∈ ps, isIndexedField schema p.1 = true →
      ∀ pr ∈ dc, (dbIdsAt idx p.1 p.2.toKey).count pr.1 = if matchB pr.2 p then 1 else 0 := by
    intro p hp hind pr hpr
    have h1 := hinv.1 pr hpr p.1 hind p.2.toKey
    rw [recIdKey_of_id (hid pr hpr)] at h1
    rw [h1]
    have hiff := hstr p hp hind pr hpr
    have hmb : matchB pr.2 p = true ↔ lookupA pr.2 p.1 = some p.2 := by
      unfold matchB
      exact beq_iff_eq
    exact if_congr (hiff.trans hmb.symm) rfl rfl
  obtain ⟨p0, rest, rfl⟩ : ∃ p0 rest, ps = p0 :: rest := by
    cases ps with
    | nil => exact absurd rfl hne
    | cons a l => exact ⟨a, l, rfl⟩
  obtain ⟨fd0, hfd0⟩ := Option.isSome_iff_exists.mp (hdecl p0 (List.mem_cons_self _ _))
  obtain ⟨tdc1, hstep1, hinv1⟩ := findStep_inv_one schema dc idx p0 hid hnd hcount
    (hfuse p0 (List.mem_cons_self _ _)) hfd0
  obtain ⟨tdcF, hloop, hinvF⟩ := findLoop_inv schema dc idx p0 hid hcount rest [] 2
    (by omega)
    (fun q hq => ⟨hnc q (List.mem_cons_of_mem _ hq), hdecl q (List.mem_cons_of_mem _ hq),
      hfuse q (List.mem_cons_of_mem _ hq)⟩) tdc1 hinv1
  simp only [List.nil_append] at hinvF
  have hloopAll : findLoop schema dc idx (toPredOpt (p0 :: rest)) 1 [] = .ok tdcF := by
    rw [show toPredOpt (p0 :: rest) = (p0.1, some p0.2) :: toPredOpt rest from rfl]
    unfold findLoop
    rw [hstep1]
    exact hloop
  unfold find
  split
  · rename_i e heq
    rw [hloopAll] at heq
    exact Except.noConfusion heq
  · rename_i tdcF' heq
    rw [hloopAll] at heq
    injection heq with heq2
    subst heq2
    refine ⟨_, rfl, ?_, ?_⟩
    · rw [foldl_filter_push, List.nil_append]
      exact find_result_nodup hinvF hid hcount _
    · intro r
      rw [foldl_filter_push, List.nil_append]
      exact find_result_mem_iff hinvF hcount (by simp [toPredOpt]) r

/-- The concrete example state satisfies the §3 index invariant. -/
theorem w3_satisfies_inv : SatisfiesIdxInv w3Schema w3Dc w3Idx := by
  constructor
  · intro pr hpr f hf vk
    have hfage : f = "age" := by
      by_contra hne2
      unfold isIndexedField at hf
      by_cases h1 : f = "active"
      · subst h1
        rw [show lookupA w3Schema "active" = some { type := .jsBoolean } from rfl] at hf
        simp at hf
      · rw [lookupA_eq_none_of_not_mem (by simp [w3Schema, h1, hne2])] at hf
        simp at hf
    subst hfage
    have hpr2 : pr = ("1", w3r1) ∨ pr = ("2", w3r2) := by
      simpa [w3Dc] using hpr
    have hlook : ∀ l : List String, vk ≠ "30" →
        lookupA [("30", l)] vk = none := by
      intro l hvk
      rw [lookupA_cons, lookupA_nil, if_neg (fun hh => hvk hh.symm)]
    rcases hpr2 with h | h <;> subst h
    · by_cases hvk : vk = "30"
      · subst hvk
        decide
      · rw [if_neg (show ¬ fieldKey w3r1 "age" = vk by
          rw [show fieldKey w3r1 "age" = "30" from rfl]; exact fun hh => hvk hh.symm)]
        unfold dbIdsAt
        rw [show lookupA w3Idx "age" = some [("30", ["1", "2"])] from rfl]
        rw [show (some [("30", ["1", "2"])]).bind (fun m => lookupA m vk)
            = lookupA [("30", ["1", "2"])] vk from rfl]
        rw [hlook _ hvk]
        rfl
    · by_cases hvk : vk = "30"
      · subst hvk
        decide
      · rw [if_neg (show ¬ fieldKey w3r2 "age" = vk by
          rw [show fieldKey w3r2 "age" = "30" from rfl]; exact fun hh => hvk hh.symm)]
        unfold dbIdsAt
        rw [show lookupA w3Idx "age" = some [("30", ["1", "2"])] from rfl]
        rw [show (some [("30", ["1", "2"])]).bind (fun m => lookupA m vk)
            = lookupA [("30", ["1", "2"])] vk from rfl]
        rw [hlook _ hvk]
        rfl
  · intro f hf m hm e hme
    exfalso
    unfold isUniqueField at hf
    by_cases h1 : f = "age"
    · subst h1
      rw [show lookupA w3Schema "age" = some { type := .jsNumber, index := true } from rfl] at hf
      simp at hf
    · by_cases h2 : f = "active"
      · subst h2
        rw [show lookupA w3Schema "active" = some { type := .jsBoolean } from rfl] at hf
        simp at hf
      · rw [lookupA_eq_none_of_not_mem (by simp [w3Schema, h1, h2])] at hf
        simp at hf

/-- Witness for the amended C3 at the spec's own example: records
`{age:30,active:true}` and `{age:30,active:false}` with `age` indexed, query
`{age: 30, active: true}`. -/
theorem c3_find_witness :
    ∃ res, find w3Schema w3Dc w3Idx (toPredOpt w3Ps) = .ok res ∧ res.Nodup ∧
      (∀ r, r ∈ res ↔ ∃ k, (k, r) ∈ w3Dc ∧ ∀ p ∈ w3Ps, lookupA r p.1 = some p.2) :=
  c3_find_conjunctive_equality w3Schema w3Dc w3Idx w3Ps (by decide) (by decide) (by decide)
    (by decide) (by decide) (by decide) w3_satisfies_inv (by decide)

end Skewer
